import Mathlib

/-!
Shallow embedding of the OpenHands enterprise data-retention subsystem:

* `server/maintenance_task_processor/inactive_user_data_retention_processor.py`
  (the two-phase inactive-user retention state machine: mark, delete, recover),
* `server/maintenance_task_processor/conversation_expiration_processor.py`
  (the conversation-expiration sweeper),
* `storage/retention_audit_log.py` (the audit-log rows), and
* the token-refresh race guard of `storage/auth_token_store.py`
  (modelled from the spec, see below).

Timestamps are modelled as integers (seconds); `datetime.min` becomes the
integer constant `datetimeMin`.  Database rows become list elements; a
SQLAlchemy session becomes an explicit `Store` value threaded through the
phases, with `session.rollback()` modelled by restoring the last committed
`Store`.  Row mutation through an ORM object is modelled as an update of
every row carrying the object's primary key `(org_id, user_id)`.
-/

/-- Seconds per day; `timedelta(days=n)` becomes `n * secondsPerDay`. -/
def secondsPerDay : Int := 86400

/-- `datetime.min.replace(tzinfo=UTC)` as seconds relative to the Unix epoch
(year 1, the smallest representable Python datetime). -/
def datetimeMin : Int := -62135596800

/-- Default values from `inactive_user_data_retention_processor.py`. -/
def DEFAULT_INACTIVITY_THRESHOLD_DAYS : Int := 90

/-- Default grace period (days) from `inactive_user_data_retention_processor.py`. -/
def DEFAULT_GRACE_PERIOD_DAYS : Int := 30

/-- Python `x or default` for an optional integer column: `None` and `0` are
falsy and select the default. -/
def pyOrInt (x : Option Int) (d : Int) : Int :=
  match x with
  | none => d
  | some v => if v == 0 then d else v

/-- A row of the `org_member` table (the retention-relevant columns).
`retention_status` is `NULL`, `'active'`, `'retention_pending'` or
`'retention_deleted'`. -/
structure OrgMember where
  org_id : Nat
  user_id : Nat
  retention_status : Option String := none
  retention_pending_since : Option Int := none
deriving Repr, DecidableEq

/-- A row of `stored_conversation_metadata` (primary metadata). -/
structure StoredConversationMetadata where
  conversation_id : Nat
  last_updated_at : Int
deriving Repr, DecidableEq

/-- A row of `stored_conversation_metadata_saas` (org-scoped shadow record). -/
structure StoredConversationMetadataSaas where
  conversation_id : Nat
  user_id : Nat
  org_id : Nat
deriving Repr, DecidableEq

/-- A row of `retention_audit_log`.  `data_scope` holds the
`conversations_deleted` count when present. -/
structure RetentionAuditLog where
  user_id : Nat
  org_id : Nat
  action : String
  triggered_by : String
  data_scope : Option Nat := none
  details : Option String := none
deriving Repr, DecidableEq

/-- The retention-policy columns of the `org` table. -/
structure Org where
  id : Nat
  inactive_user_retention_days : Option Int := none
  inactive_user_grace_period_days : Option Int := none
  conversation_expiration : Option Int := none
deriving Repr, DecidableEq

/-- The database state visible to a session: the four tables the retention
processors read and write. -/
structure Store where
  members : List OrgMember
  metas : List StoredConversationMetadata
  saas : List StoredConversationMetadataSaas
  audits : List RetentionAuditLog
deriving Repr, DecidableEq

/-- The processor class attribute `batch_size: int = 50`. -/
structure InactiveUserDataRetentionProcessor where
  batch_size : Nat := 50

/-- The org filter of `InactiveUserDataRetentionProcessor.__call__`:
`inactive_user_retention_days` is not `NULL` and is `> 0`. -/
def retentionOrgFilter (o : Org) : Bool :=
  match o.inactive_user_retention_days with
  | none => false
  | some d => decide (0 < d)

/-- Maximum of a list of timestamps, `none` on the empty list
(SQL `MAX` over no rows). -/
def listMax? : List Int → Option Int
  | [] => none
  | t :: ts =>
    match listMax? ts with
    | none => some t
    | some m => some (max t m)

/-- `_get_user_last_activity`: the maximum `last_updated_at` over the user's
conversations in the org (primary metadata joined with the org-scoped shadow
on `conversation_id`, filtered by `user_id` and `org_id`). -/
def userLastActivity (metas : List StoredConversationMetadata)
    (saas : List StoredConversationMetadataSaas) (u o : Nat) : Option Int :=
  listMax? ((metas.filter (fun m =>
    saas.any (fun s =>
      s.conversation_id == m.conversation_id && s.user_id == u && s.org_id == o))).map
    (fun m => m.last_updated_at))

/-- The status filter of the mark phase: `retention_status IS NULL OR
retention_status = 'active'`, restricted to the org. -/
def markSelectable (orgId : Nat) (m : OrgMember) : Bool :=
  m.org_id == orgId &&
    (m.retention_status == none || m.retention_status == some "active")

/-- The mark phase's member query: status filter then `LIMIT batch_size`. -/
def markCandidates (batchSize : Nat) (orgId : Nat) (members : List OrgMember) :
    List OrgMember :=
  (members.filter (markSelectable orgId)).take batchSize

/-- Last activity with the `None` fallback of the mark loop:
`datetime.min` when the user has no conversations. -/
def lastActivityOrMin (metas : List StoredConversationMetadata)
    (saas : List StoredConversationMetadataSaas) (u o : Nat) : Int :=
  (userLastActivity metas saas u o).getD datetimeMin

/-- The members the mark loop actually marks: selected candidates whose
(fallback-adjusted) last activity is strictly before the threshold. -/
def markedMembers (batchSize : Nat) (threshold : Int) (orgId : Nat)
    (metas : List StoredConversationMetadata)
    (saas : List StoredConversationMetadataSaas) (members : List OrgMember) :
    List OrgMember :=
  (markCandidates batchSize orgId members).filter
    (fun m => decide (lastActivityOrMin metas saas m.user_id orgId < threshold))

/-- The `details` string of a `marked` audit entry: `"never"` exactly when the
fallback value `datetime.min` was used. -/
def markDetails (la : Int) : String :=
  if la == datetimeMin then "Last activity: never"
  else "Last activity: " ++ toString la

/-- The audit row written by `_create_audit_log` for a marked member. -/
def markAuditEntry (orgId : Nat) (metas : List StoredConversationMetadata)
    (saas : List StoredConversationMetadataSaas) (m : OrgMember) :
    RetentionAuditLog :=
  { user_id := m.user_id
    org_id := orgId
    action := "marked"
    triggered_by := "policy"
    data_scope := none
    details := some (markDetails (lastActivityOrMin metas saas m.user_id orgId)) }

/-- Whether the ORM row `x` is the row mutated through candidate object `c`
(same primary key `(org_id, user_id)`). -/
def keyMatches (c x : OrgMember) : Bool :=
  x.org_id == c.org_id && x.user_id == c.user_id

/-- The row mutation of the mark loop: a row keyed like a marked candidate gets
`retention_status = 'retention_pending'` and `retention_pending_since = now`. -/
def markRowUpdate (now : Int) (toMark : List OrgMember) (x : OrgMember) :
    OrgMember :=
  if toMark.any (fun c => keyMatches c x) then
    { x with retention_status := some "retention_pending"
             retention_pending_since := some now }
  else x

/-- `_mark_inactive_users`: mark inactive candidates, append one `marked`
audit row per marked member, return the updated store and the marked count. -/
def markInactiveUsers (batchSize : Nat) (now : Int) (orgId : Nat)
    (inactivityDays : Int) (st : Store) : Store × Nat :=
  let threshold := now - inactivityDays * secondsPerDay
  let toMark := markedMembers batchSize threshold orgId st.metas st.saas st.members
  ({ st with
      members := st.members.map (markRowUpdate now toMark)
      audits := st.audits ++ toMark.map (markAuditEntry orgId st.metas st.saas) },
   toMark.length)

/-- The delete phase's member query filter: the org's members with status
`'retention_pending'` whose `retention_pending_since` is strictly before the
grace threshold (a `NULL` timestamp never compares true in SQL). -/
def deleteSelectable (orgId : Nat) (graceThreshold : Int) (m : OrgMember) : Bool :=
  m.org_id == orgId && m.retention_status == some "retention_pending" &&
    (match m.retention_pending_since with
     | some t => decide (t < graceThreshold)
     | none => false)

/-- The delete phase's member query: filter then `LIMIT batch_size`. -/
def deleteCandidates (batchSize : Nat) (graceThreshold : Int) (orgId : Nat)
    (members : List OrgMember) : List OrgMember :=
  (members.filter (deleteSelectable orgId graceThreshold)).take batchSize

/-- `_delete_user_conversations`: delete every shadow record of the user in the
org together with the primary metadata rows carrying the same conversation id;
return the number of conversations deleted. -/
def deleteUserConversations (st : Store) (u o : Nat) : Store × Nat :=
  let mine := st.saas.filter (fun s => s.user_id == u && s.org_id == o)
  ({ st with
      metas := st.metas.filter (fun m =>
        !(mine.any (fun s => s.conversation_id == m.conversation_id)))
      saas := st.saas.filter (fun s => !(s.user_id == u && s.org_id == o)) },
   mine.length)

/-- The audit row written for a deleted user (`data_scope` records the
conversation count). -/
def deleteAuditEntry (orgId u n : Nat) : RetentionAuditLog :=
  { user_id := u
    org_id := orgId
    action := "deleted"
    triggered_by := "policy"
    data_scope := some n
    details := some ("Deleted " ++ toString n ++
      " conversations after grace period") }

/-- One successful iteration of the delete loop: delete the candidate's
conversations, set the candidate's row to `'retention_deleted'`, append the
`deleted` audit row. -/
def deleteOneUser (orgId : Nat) (st : Store) (c : OrgMember) : Store :=
  let dc := deleteUserConversations st c.user_id orgId
  { dc.1 with
      members := dc.1.members.map (fun x =>
        if keyMatches c x then { x with retention_status := some "retention_deleted" }
        else x)
      audits := dc.1.audits ++ [deleteAuditEntry orgId c.user_id dc.2] }

/-- A per-candidate loop over a session: on a failure the session is rolled
back to the last committed state (`committed`) and processing continues; a
success applies `step` and increments the count.  Shared shape of the delete
loop of `_delete_retention_pending_users` and the loop of
`_process_org_conversations`. -/
def rollbackLoop (step : Store → α → Store) (failing : α → Bool)
    (committed : Store) : List α → Store → Nat → Store × Nat
  | [], sess, n => (sess, n)
  | x :: rest, sess, n =>
    if failing x then rollbackLoop step failing committed rest committed n
    else rollbackLoop step failing committed rest (step sess x) (n + 1)

/-- `_delete_retention_pending_users`: select candidates past the grace
period, run the rollback loop over them (`failing u` models a raised exception
while deleting user `u`'s data), and commit only when the counter is
positive. -/
def deleteRetentionPendingUsers (batchSize : Nat) (now graceDays : Int)
    (orgId : Nat) (failing : Nat → Bool) (st : Store) : Store × Nat :=
  let graceThreshold := now - graceDays * secondsPerDay
  let candidates := deleteCandidates batchSize graceThreshold orgId st.members
  let r := rollbackLoop (deleteOneUser orgId) (fun c => failing c.user_id) st
    candidates st 0
  if 0 < r.2 then r else (st, r.2)

/-- The recovery phase's member query filter: the org's members with status
`'retention_pending'`. -/
def recoverSelectable (orgId : Nat) (m : OrgMember) : Bool :=
  m.org_id == orgId && m.retention_status == some "retention_pending"

/-- The recovery phase's member query: filter then `LIMIT batch_size`. -/
def recoverCandidates (batchSize : Nat) (orgId : Nat) (members : List OrgMember) :
    List OrgMember :=
  (members.filter (recoverSelectable orgId)).take batchSize

/-- The members the recovery loop actually recovers: selected candidates with
some activity at or after the threshold (`if last_activity and
last_activity >= threshold`; a missing activity is skipped). -/
def recoveredMembers (batchSize : Nat) (threshold : Int) (orgId : Nat)
    (metas : List StoredConversationMetadata)
    (saas : List StoredConversationMetadataSaas) (members : List OrgMember) :
    List OrgMember :=
  (recoverCandidates batchSize orgId members).filter (fun m =>
    match userLastActivity metas saas m.user_id orgId with
    | some la => decide (threshold ≤ la)
    | none => false)

/-- The audit row written for a recovered member. -/
def recoverAuditEntry (orgId : Nat) (metas : List StoredConversationMetadata)
    (saas : List StoredConversationMetadataSaas) (m : OrgMember) :
    RetentionAuditLog :=
  { user_id := m.user_id
    org_id := orgId
    action := "recovered"
    triggered_by := "policy"
    data_scope := none
    details := some ("User became active again: " ++
      toString ((userLastActivity metas saas m.user_id orgId).getD datetimeMin)) }

/-- The row mutation of the recovery loop: a row keyed like a recovered
candidate gets `retention_status = 'active'` and a cleared
`retention_pending_since`. -/
def recoverRowUpdate (toRecover : List OrgMember) (x : OrgMember) : OrgMember :=
  if toRecover.any (fun c => keyMatches c x) then
    { x with retention_status := some "active", retention_pending_since := none }
  else x

/-- `_recover_active_users`: recover pending members that have recent activity,
append one `recovered` audit row per recovered member. -/
def recoverActiveUsers (batchSize : Nat) (now : Int) (orgId : Nat)
    (inactivityDays : Int) (st : Store) : Store × Nat :=
  let threshold := now - inactivityDays * secondsPerDay
  let toRecover :=
    recoveredMembers batchSize threshold orgId st.metas st.saas st.members
  ({ st with
      members := st.members.map (recoverRowUpdate toRecover)
      audits := st.audits ++
        toRecover.map (recoverAuditEntry orgId st.metas st.saas) },
   toRecover.length)

/-- `_process_org_retention`: apply the Python `or`-defaults to the org's two
policy columns, then run mark, delete and recover in order on the same
session.  Returns the final store and the `(marked, deleted, recovered)`
counts. -/
def processOrgRetention (batchSize : Nat) (now : Int) (failing : Nat → Bool)
    (org : Org) (st : Store) : Store × Nat × Nat × Nat :=
  let inactivityDays :=
    pyOrInt org.inactive_user_retention_days DEFAULT_INACTIVITY_THRESHOLD_DAYS
  let graceDays :=
    pyOrInt org.inactive_user_grace_period_days DEFAULT_GRACE_PERIOD_DAYS
  let r1 := markInactiveUsers batchSize now org.id inactivityDays st
  let r2 := deleteRetentionPendingUsers batchSize now graceDays org.id failing r1.1
  let r3 := recoverActiveUsers batchSize now org.id inactivityDays r2.1
  (r3.1, r1.2, r2.2, r3.2)

/-- The sweeper class attribute `batch_size: int = 100`. -/
structure ConversationExpirationProcessor where
  batch_size : Nat := 100

/-- The expiration query of `_process_org_conversations`: shadow records of the
org joined with a primary metadata row older than the threshold, then
`LIMIT batch_size`. -/
def expiredCandidates (batchSize : Nat) (threshold : Int) (o : Nat)
    (metas : List StoredConversationMetadata)
    (saas : List StoredConversationMetadataSaas) :
    List StoredConversationMetadataSaas :=
  (saas.filter (fun s => s.org_id == o &&
    metas.any (fun m => m.conversation_id == s.conversation_id &&
      decide (m.last_updated_at < threshold)))).take batchSize

/-- One successful iteration of the expiration loop: delete the primary
metadata rows and the shadow record of the conversation. -/
def expireOne (st : Store) (s : StoredConversationMetadataSaas) : Store :=
  { st with
      metas := st.metas.filter (fun m =>
        !(m.conversation_id == s.conversation_id))
      saas := st.saas.filter (fun x =>
        !(x.conversation_id == s.conversation_id)) }

/-- `_process_org_conversations`: select expired conversations, run the
rollback loop over them (`failing cid` models a raised exception while
deleting conversation `cid`), and commit only when the counter is positive. -/
def processOrgConversations (batchSize : Nat) (now expirationDays : Int)
    (o : Nat) (failing : Nat → Bool) (st : Store) : Store × Nat :=
  let threshold := now - expirationDays * secondsPerDay
  let cands := expiredCandidates batchSize threshold o st.metas st.saas
  let r := rollbackLoop expireOne (fun s => failing s.conversation_id) st
    cands st 0
  if 0 < r.2 then r else (st, r.2)

/-- A stored OAuth token pair (columns of the auth-token row). -/
structure Tokens where
  access_token : String
  refresh_token : String
  access_token_expires_at : Int
  refresh_token_expires_at : Int
deriving Repr, DecidableEq

/-- Outcome of one upstream refresh attempt
(`check_expiration_and_refresh`). -/
inductive RefreshOutcome where
  | refreshed : Tokens → RefreshOutcome
  | invalidGrant : RefreshOutcome
  | upstreamFailure : String → RefreshOutcome
deriving Repr, DecidableEq

/-- Result of `load_tokens`. -/
inductive LoadTokensResult where
  | tokens : Tokens → LoadTokensResult
  | raceError : LoadTokensResult
  | upstreamError : String → LoadTokensResult
deriving Repr, DecidableEq

/-- Modelled from the spec: `AuthTokenStore` of `storage/auth_token_store.py`
is not under `src/` (only its unit tests are); its `max_retries` defaults
to 3. -/
structure AuthTokenStore where
  max_retries : Nat := 3

/-- Modelled from the spec: the retry loop of `AuthTokenStore.load_tokens`.
`refreshAttempt i` is the outcome of the `i`-th upstream refresh call and
`retryRead i` the re-read of the stored row (under a row lock, after the fixed
0.5s backoff) following the `i`-th `invalid_grant` failure.  A successful
refresh returns its tokens; a non-`invalid_grant` upstream error propagates
immediately; an `invalid_grant` failure returns the concurrently rotated
tokens when the re-read finds them and otherwise retries, raising the
distinguished race error once `max_retries` consecutive race failures have
been consumed. -/
def loadTokensGo (refreshAttempt : Nat → RefreshOutcome)
    (retryRead : Nat → Option Tokens) : Nat → Nat → LoadTokensResult
  | 0, _ => .raceError
  | fuel + 1, i =>
    match refreshAttempt i with
    | .refreshed t => .tokens t
    | .upstreamFailure c => .upstreamError c
    | .invalidGrant =>
      match retryRead i with
      | some t => .tokens t
      | none => loadTokensGo refreshAttempt retryRead fuel (i + 1)

/-- Modelled from the spec: `AuthTokenStore.load_tokens` (the race-guard entry
point), starting the retry loop with `max_retries` attempts. -/
def loadTokens (store : AuthTokenStore) (refreshAttempt : Nat → RefreshOutcome)
    (retryRead : Nat → Option Tokens) : LoadTokensResult :=
  loadTokensGo refreshAttempt retryRead store.max_retries 0

/-- The spec's invariant on one member row: `retention_pending_since` is
non-null iff the status is `'retention_pending'`. -/
def pendingIffInvariant (m : OrgMember) : Prop :=
  m.retention_pending_since ≠ none ↔ m.retention_status = some "retention_pending"

instance (m : OrgMember) : Decidable (pendingIffInvariant m) := by
  unfold pendingIffInvariant; infer_instance

/-- The invariant the code actually maintains: a pending row has a non-null
timestamp, and a non-null timestamp occurs only on pending or deleted rows
(the delete phase never clears `retention_pending_since`). -/
def retentionInvariant (m : OrgMember) : Prop :=
  (m.retention_status = some "retention_pending" →
    m.retention_pending_since ≠ none) ∧
  (m.retention_pending_since ≠ none →
    m.retention_status = some "retention_pending" ∨
    m.retention_status = some "retention_deleted")

instance (m : OrgMember) : Decidable (retentionInvariant m) := by
  unfold retentionInvariant; infer_instance

/-- Primary key of an `org_member` row. -/
def memberKey (m : OrgMember) : Nat × Nat := (m.org_id, m.user_id)

/-- Number of rows currently carrying the given retention status. -/
def countStatus (l : List OrgMember) (s : String) : Nat :=
  (l.filter (fun m => m.retention_status == some s)).length

/-- Number of positions whose row transitioned into status `s` between two
same-length snapshots of the member table. -/
def transitionCount (before after : List OrgMember) (s : String) : Nat :=
  ((before.zip after).filter (fun p =>
    !(p.1.retention_status == some s) && p.2.retention_status == some s)).length

/-- Number of audit rows carrying the given action. -/
def auditCount (l : List RetentionAuditLog) (a : String) : Nat :=
  (l.filter (fun e => e.action == a)).length

/-- The candidates whose uncommitted work survives a batch processed by
`rollbackLoop`: every rollback discards the session, so exactly the non-failing
candidates after the last failing one are persisted by the final commit. -/
def suffixAfterLastFailure (failing : α → Bool) : List α → List α
  | [] => []
  | x :: rest =>
    if rest.any failing then suffixAfterLastFailure failing rest
    else if failing x then rest
    else x :: rest

/-- An organization's member table is settled for thresholds `thr` (latest
activity) and `gthr` (grace): every member of the org that the mark phase
could select has recent activity, and every pending member of the org is
within the grace period and has no activity recent enough to recover. -/
def settled (thr gthr : Int) (o : Nat) (st : Store) : Prop :=
  ∀ m ∈ st.members, m.org_id = o →
    ((m.retention_status = none ∨ m.retention_status = some "active") →
      thr ≤ lastActivityOrMin st.metas st.saas m.user_id o) ∧
    (m.retention_status = some "retention_pending" →
      (∀ t, m.retention_pending_since = some t → gthr ≤ t) ∧
      (userLastActivity st.metas st.saas m.user_id o = none ∨
        (∀ la, userLastActivity st.metas st.saas m.user_id o = some la →
          la < thr)))

/-! ### List helper lemmas -/

theorem list_countP_congr {α : Type} {l : List α} {p q : α → Bool}
    (h : ∀ x ∈ l, p x = q x) : l.countP p = l.countP q := by
  induction l with
  | nil => rfl
  | cons a l ih =>
    rw [List.countP_cons, List.countP_cons, h a (List.mem_cons_self a l),
      ih (fun x hx => h x (List.mem_cons_of_mem a hx))]

theorem list_any_congr {α : Type} {l : List α} {p q : α → Bool}
    (h : ∀ x ∈ l, p x = q x) : l.any p = l.any q := by
  induction l with
  | nil => rfl
  | cons a l ih =>
    rw [List.any_cons, List.any_cons, h a (List.mem_cons_self a l),
      ih (fun x hx => h x (List.mem_cons_of_mem a hx))]

theorem zip_self_map {α β : Type} (l : List α) (g : α → β) :
    l.zip (l.map g) = l.map (fun x => (x, g x)) :=
  (List.map_prod_left_eq_zip g).symm

/-! ### The rollback loop -/

theorem suffixAfterLastFailure_of_not_any {α : Type} (failing : α → Bool)
    (cs : List α) (h : cs.any failing = false) :
    suffixAfterLastFailure failing cs = cs := by
  cases cs with
  | nil => rfl
  | cons x rest =>
    rw [List.any_cons, Bool.or_eq_false_iff] at h
    simp [suffixAfterLastFailure, h.1, h.2]

theorem suffixAfterLastFailure_sublist {α : Type} (failing : α → Bool)
    (cs : List α) : (suffixAfterLastFailure failing cs).Sublist cs := by
  induction cs with
  | nil => exact List.Sublist.refl _
  | cons x rest ih =>
    rw [suffixAfterLastFailure]
    by_cases h : rest.any failing = true
    · simp only [h, if_true]
      exact ih.trans (List.sublist_cons_self x rest)
    · simp only [h, if_false]
      by_cases hx : failing x = true
      · simp only [hx, if_true]
        exact List.sublist_cons_self x rest
      · simp only [hx, if_false]
        exact List.Sublist.refl _

theorem rollbackLoop_spec {α : Type} (step : Store → α → Store)
    (failing : α → Bool) (committed : Store) :
    ∀ (cs : List α) (sess : Store) (n : Nat),
      rollbackLoop step failing committed cs sess n =
        ((if cs.any failing then
            (suffixAfterLastFailure failing cs).foldl step committed
          else cs.foldl step sess),
         n + (cs.filter (fun x => !failing x)).length) := by
  intro cs
  induction cs with
  | nil => intro sess n; simp [rollbackLoop]
  | cons x rest ih =>
    intro sess n
    by_cases hx : failing x = true
    · rw [rollbackLoop, if_pos hx, ih committed n]
      rw [List.any_cons, hx, Bool.true_or, if_pos rfl]
      rw [List.filter_cons, hx]
      simp only [Bool.not_true, suffixAfterLastFailure]
      by_cases hr : rest.any failing = true
      · simp [hr]
      · simp only [Bool.not_eq_true] at hr
        simp [hr, hx, suffixAfterLastFailure_of_not_any failing rest hr]
    · simp only [Bool.not_eq_true] at hx
      rw [rollbackLoop, if_neg (by simp [hx]), ih (step sess x) (n + 1)]
      rw [List.any_cons, hx, Bool.false_or]
      rw [List.filter_cons, hx]
      simp only [Bool.not_false, List.length_cons, if_true]
      by_cases hr : rest.any failing = true
      · simp only [hr, if_pos rfl, suffixAfterLastFailure, if_true]
        congr 1
        omega
      · simp only [Bool.not_eq_true] at hr
        rw [hr]
        simp only [if_false, List.foldl_cons]
        congr 1
        omega

/-- Characterization of the delete phase: the persisted state applies the
per-user deletions of exactly the candidates after the last failure, and the
returned count is the number of candidates processed without error. -/
theorem deleteRetentionPendingUsers_eq (batchSize : Nat) (now graceDays : Int)
    (orgId : Nat) (failing : Nat → Bool) (st : Store) :
    deleteRetentionPendingUsers batchSize now graceDays orgId failing st =
      (let cs := deleteCandidates batchSize (now - graceDays * secondsPerDay)
        orgId st.members
       let succ := (cs.filter (fun c => !failing c.user_id)).length
       (if 0 < succ then
          (suffixAfterLastFailure (fun c => failing c.user_id) cs).foldl
            (deleteOneUser orgId) st
        else st, succ)) := by
  unfold deleteRetentionPendingUsers
  simp only [rollbackLoop_spec, Nat.zero_add]
  by_cases h : (deleteCandidates batchSize (now - graceDays * secondsPerDay)
      orgId st.members).any (fun c => failing c.user_id) = true
  · simp only [h, if_true]
    split <;> rfl
  · simp only [Bool.not_eq_true] at h
    rw [suffixAfterLastFailure_of_not_any _ _ h, h]
    simp only [Bool.false_eq_true, if_false]
    split <;> rfl

/-- Characterization of the expiration sweep for one org: the persisted state
applies the deletions of exactly the candidate conversations after the last
failure, and the returned count is the number of candidates processed without
error. -/
theorem processOrgConversations_eq (batchSize : Nat) (now expirationDays : Int)
    (o : Nat) (failing : Nat → Bool) (st : Store) :
    processOrgConversations batchSize now expirationDays o failing st =
      (let cs := expiredCandidates batchSize (now - expirationDays * secondsPerDay)
        o st.metas st.saas
       let succ := (cs.filter (fun s => !failing s.conversation_id)).length
       (if 0 < succ then
          (suffixAfterLastFailure (fun s => failing s.conversation_id) cs).foldl
            expireOne st
        else st, succ)) := by
  unfold processOrgConversations
  simp only [rollbackLoop_spec, Nat.zero_add]
  by_cases h : (expiredCandidates batchSize (now - expirationDays * secondsPerDay)
      o st.metas st.saas).any (fun s => failing s.conversation_id) = true
  · simp only [h, if_true]
    split <;> rfl
  · simp only [Bool.not_eq_true] at h
    rw [suffixAfterLastFailure_of_not_any _ _ h, h]
    simp only [Bool.false_eq_true, if_false]
    split <;> rfl

/-! ### Effect of the delete loop on the member table and the audit log -/

theorem keyMatches_update (c x : OrgMember) (s : Option String) (t : Option Int) :
    keyMatches c { x with retention_status := s, retention_pending_since := t } =
      keyMatches c x := rfl

theorem keyMatches_update_status (c x : OrgMember) (s : Option String) :
    keyMatches c { x with retention_status := s } = keyMatches c x := rfl

theorem foldl_deleteOneUser_members (orgId : Nat) :
    ∀ (cs : List OrgMember) (st : Store),
      (cs.foldl (deleteOneUser orgId) st).members =
        st.members.map (fun x =>
          if cs.any (fun c => keyMatches c x) then
            { x with retention_status := some "retention_deleted" }
          else x) := by
  intro cs
  induction cs with
  | nil =>
    intro st
    simp only [List.foldl_nil, List.any_nil, Bool.false_eq_true, if_false,
      List.map_id']
  | cons c rest ih =>
    intro st
    rw [List.foldl_cons, ih]
    have hmem : (deleteOneUser orgId st c).members =
        st.members.map (fun x =>
          if keyMatches c x then { x with retention_status := some "retention_deleted" }
          else x) := rfl
    rw [hmem, List.map_map]
    refine congrArg (fun f => List.map f st.members) (funext fun x => ?_)
    simp only [Function.comp]
    by_cases hk : keyMatches c x = true
    · simp only [hk, if_true, keyMatches_update_status, List.any_cons, Bool.true_or]
      split <;> rfl
    · simp only [hk, Bool.false_eq_true, if_false, List.any_cons, Bool.false_or]

theorem foldl_deleteOneUser_audits (orgId : Nat) :
    ∀ (cs : List OrgMember) (st : Store),
      ∃ added, (cs.foldl (deleteOneUser orgId) st).audits = st.audits ++ added ∧
        added.length = cs.length ∧ ∀ e ∈ added, e.action = "deleted" := by
  intro cs
  induction cs with
  | nil => intro st; exact ⟨[], by simp, rfl, by simp⟩
  | cons c rest ih =>
    intro st
    obtain ⟨added, heq, hlen, hact⟩ := ih (deleteOneUser orgId st c)
    refine ⟨deleteAuditEntry orgId c.user_id
      (deleteUserConversations st c.user_id orgId).2 :: added, ?_, ?_, ?_⟩
    · have heq2 : (deleteOneUser orgId st c).audits = st.audits ++
          [deleteAuditEntry orgId c.user_id
            (deleteUserConversations st c.user_id orgId).2] := rfl
      rw [List.foldl_cons, heq, heq2, List.append_assoc]
      rfl
    · simp [hlen]
    · intro e he
      rcases List.mem_cons.mp he with h | h
      · rw [h]; rfl
      · exact hact e h

theorem foldl_deleteOneUser_length (orgId : Nat) :
    ∀ (cs : List OrgMember) (st : Store),
      (cs.foldl (deleteOneUser orgId) st).members.length = st.members.length := by
  intro cs st
  rw [foldl_deleteOneUser_members, List.length_map]

/-! ### Effect of the expiration loop on the two conversation tables -/

theorem foldl_expireOne_metas :
    ∀ (cs : List StoredConversationMetadataSaas) (st : Store),
      (cs.foldl expireOne st).metas =
        st.metas.filter (fun m =>
          !(cs.any (fun s => m.conversation_id == s.conversation_id))) := by
  intro cs
  induction cs with
  | nil => intro st; simp
  | cons c rest ih =>
    intro st
    rw [List.foldl_cons, ih]
    show (st.metas.filter _).filter _ = _
    rw [List.filter_filter]
    refine List.filter_congr (fun m _ => ?_)
    rw [List.any_cons]
    cases h1 : m.conversation_id == c.conversation_id <;>
      cases h2 : rest.any (fun s => m.conversation_id == s.conversation_id) <;>
        simp [h1, h2]

theorem foldl_expireOne_saas :
    ∀ (cs : List StoredConversationMetadataSaas) (st : Store),
      (cs.foldl expireOne st).saas =
        st.saas.filter (fun x =>
          !(cs.any (fun s => x.conversation_id == s.conversation_id))) := by
  intro cs
  induction cs with
  | nil => intro st; simp
  | cons c rest ih =>
    intro st
    rw [List.foldl_cons, ih]
    show (st.saas.filter _).filter _ = _
    rw [List.filter_filter]
    refine List.filter_congr (fun x _ => ?_)
    rw [List.any_cons]
    cases h1 : x.conversation_id == c.conversation_id <;>
      cases h2 : rest.any (fun s => x.conversation_id == s.conversation_id) <;>
        simp [h1, h2]

theorem foldl_expireOne_members_audits :
    ∀ (cs : List StoredConversationMetadataSaas) (st : Store),
      (cs.foldl expireOne st).members = st.members ∧
        (cs.foldl expireOne st).audits = st.audits := by
  intro cs
  induction cs with
  | nil => intro st; exact ⟨rfl, rfl⟩
  | cons c rest ih =>
    intro st
    exact ih (expireOne st c)

/-! ### Counting rows touched through a set of distinct primary keys -/

theorem memberKey_eq_of_keyMatches {c x : OrgMember}
    (h : keyMatches c x = true) : memberKey x = memberKey c := by
  unfold keyMatches at h
  rw [Bool.and_eq_true, beq_iff_eq, beq_iff_eq] at h
  unfold memberKey
  rw [h.1, h.2]

theorem keyMatches_self (c : OrgMember) : keyMatches c c = true := by
  unfold keyMatches
  rw [Bool.and_eq_true, beq_iff_eq, beq_iff_eq]
  exact ⟨rfl, rfl⟩

theorem countP_keyMatch {sel l : List OrgMember} (hs : sel.Sublist l) :
    (l.map memberKey).Nodup →
      l.countP (fun x => sel.any (fun c => keyMatches c x)) = sel.length := by
  induction hs with
  | slnil => intro _; rfl
  | cons a hs ih =>
    rename_i sel₁ l₁
    intro hnd
    rw [List.map_cons, List.nodup_cons] at hnd
    rw [List.countP_cons]
    have ha : (sel₁.any (fun c => keyMatches c a)) = false := by
      rw [Bool.eq_false_iff]
      intro hany
      rw [List.any_eq_true] at hany
      obtain ⟨c, hc, hk⟩ := hany
      exact hnd.1 (List.mem_map.mpr ⟨c, hs.subset hc,
        (memberKey_eq_of_keyMatches hk).symm⟩)
    rw [ha, if_neg (by simp), Nat.add_zero]
    exact ih hnd.2
  | cons₂ a hs ih =>
    rename_i sel₁ l₁
    intro hnd
    rw [List.map_cons, List.nodup_cons] at hnd
    rw [List.countP_cons]
    have ha : ((a :: sel₁).any (fun c => keyMatches c a)) = true := by
      rw [List.any_cons, keyMatches_self, Bool.true_or]
    rw [ha, if_pos rfl]
    have hrest : l₁.countP (fun x => (a :: sel₁).any (fun c => keyMatches c x)) =
        l₁.countP (fun x => sel₁.any (fun c => keyMatches c x)) := by
      refine list_countP_congr (fun x hx => ?_)
      rw [List.any_cons]
      have : keyMatches a x = false := by
        rw [Bool.eq_false_iff]
        intro hk
        exact hnd.1 (List.mem_map.mpr ⟨x, hx, (memberKey_eq_of_keyMatches hk)⟩)
      rw [this, Bool.false_or]
    rw [hrest, ih hnd.2, List.length_cons]

theorem eq_of_keyMatches_mem {sel l : List OrgMember} (hs : sel.Sublist l)
    (hnd : (l.map memberKey).Nodup) {x c : OrgMember} (hx : x ∈ l)
    (hc : c ∈ sel) (hk : keyMatches c x = true) : x = c := by
  exact List.inj_on_of_nodup_map hnd hx (hs.subset hc)
    (memberKey_eq_of_keyMatches hk)

/-! ### The delete loop preserves the recorded activity of surviving users -/

theorem deleteOneUser_userLastActivity (o : Nat) (st : Store) (c : OrgMember)
    (u : Nat) (hu : (u == c.user_id) = false)
    (hnd : (st.saas.map (fun s => s.conversation_id)).Nodup) :
    userLastActivity (deleteOneUser o st c).metas (deleteOneUser o st c).saas u o
      = userLastActivity st.metas st.saas u o := by
  have hmetas : (deleteOneUser o st c).metas =
      st.metas.filter (fun m =>
        !((st.saas.filter (fun s => s.user_id == c.user_id && s.org_id == o)).any
          (fun s => s.conversation_id == m.conversation_id))) := rfl
  have hsaas : (deleteOneUser o st c).saas =
      st.saas.filter (fun s => !(s.user_id == c.user_id && s.org_id == o)) := rfl
  rw [hmetas, hsaas]
  unfold userLastActivity
  refine congrArg _ (congrArg _ ?_)
  rw [List.filter_filter]
  refine List.filter_congr (fun m _ => ?_)
  rw [List.any_filter, List.any_filter]
  have h1 : st.saas.any (fun s =>
        (!(s.user_id == c.user_id && s.org_id == o)) &&
          (s.conversation_id == m.conversation_id && s.user_id == u &&
            s.org_id == o)) =
      st.saas.any (fun s => s.conversation_id == m.conversation_id &&
        s.user_id == u && s.org_id == o) := by
    refine list_any_congr (fun s _ => ?_)
    by_cases hA : (s.conversation_id == m.conversation_id && s.user_id == u &&
        s.org_id == o) = true
    · rw [hA, Bool.and_true]
      rw [Bool.and_eq_true, Bool.and_eq_true] at hA
      have hsu : s.user_id = u := by
        have := hA.1.2
        rwa [beq_iff_eq] at this
      have : (s.user_id == c.user_id) = false := by
        rw [hsu]
        exact hu
      rw [this, Bool.false_and, Bool.not_false]
    · simp only [Bool.not_eq_true] at hA
      rw [hA, Bool.and_false]
  rw [h1]
  by_cases h0 : st.saas.any (fun s => s.conversation_id == m.conversation_id &&
      s.user_id == u && s.org_id == o) = true
  · rw [h0, Bool.true_and]
    have hnone : (st.saas.any (fun s =>
        (s.user_id == c.user_id && s.org_id == o) &&
          s.conversation_id == m.conversation_id)) = false := by
      rw [Bool.eq_false_iff]
      intro hany
      rw [List.any_eq_true] at hany h0
      obtain ⟨s', hs', hB⟩ := hany
      obtain ⟨s, hs, hA⟩ := h0
      rw [Bool.and_eq_true, Bool.and_eq_true] at hB hA
      have hconv : s.conversation_id = s'.conversation_id := by
        have e1 : s.conversation_id = m.conversation_id := by
          have := hA.1.1; rwa [beq_iff_eq] at this
        have e2 : s'.conversation_id = m.conversation_id := by
          have := hB.2; rwa [beq_iff_eq] at this
        rw [e1, e2]
      have hss : s = s' :=
        List.inj_on_of_nodup_map hnd hs hs' hconv
      have hu1 : s.user_id = u := by
        have := hA.1.2; rwa [beq_iff_eq] at this
      have hu2 : s'.user_id = c.user_id := by
        have := hB.1.1; rwa [beq_iff_eq] at this
      have : (u == c.user_id) = true := by
        rw [beq_iff_eq, ← hu1, hss, hu2]
      rw [this] at hu
      exact Bool.noConfusion hu
    rw [hnone, Bool.not_false]
  · have h0f : (st.saas.any (fun s => s.conversation_id == m.conversation_id &&
        s.user_id == u && s.org_id == o)) = false := by
      rwa [Bool.not_eq_true] at h0
    rw [h0f, Bool.false_and]

theorem deleteOneUser_saas_nodup (o : Nat) (st : Store) (c : OrgMember)
    (hnd : (st.saas.map (fun s => s.conversation_id)).Nodup) :
    ((deleteOneUser o st c).saas.map (fun s => s.conversation_id)).Nodup := by
  have hsub : (deleteOneUser o st c).saas.Sublist st.saas :=
    List.filter_sublist st.saas
  exact hnd.sublist (hsub.map _)

theorem foldl_deleteOneUser_userLastActivity (o : Nat) :
    ∀ (cs : List OrgMember) (st : Store) (u : Nat),
      (∀ c ∈ cs, (u == c.user_id) = false) →
      (st.saas.map (fun s => s.conversation_id)).Nodup →
      userLastActivity (cs.foldl (deleteOneUser o) st).metas
        (cs.foldl (deleteOneUser o) st).saas u o =
        userLastActivity st.metas st.saas u o := by
  intro cs
  induction cs with
  | nil => intro st u _ _; rfl
  | cons c rest ih =>
    intro st u hc hnd
    rw [List.foldl_cons]
    rw [ih (deleteOneUser o st c) u
      (fun x hx => hc x (List.mem_cons_of_mem c hx))
      (deleteOneUser_saas_nodup o st c hnd)]
    exact deleteOneUser_userLastActivity o st c u
      (hc c (List.mem_cons_self c rest)) hnd

theorem foldl_deleteOneUser_saas_nodup (o : Nat) :
    ∀ (cs : List OrgMember) (st : Store),
      (st.saas.map (fun s => s.conversation_id)).Nodup →
      ((cs.foldl (deleteOneUser o) st).saas.map
        (fun s => s.conversation_id)).Nodup := by
  intro cs
  induction cs with
  | nil => intro st h; exact h
  | cons c rest ih =>
    intro st h
    rw [List.foldl_cons]
    exact ih (deleteOneUser o st c) (deleteOneUser_saas_nodup o st c h)

/-! ### Retry-loop lemmas for the token refresh guard -/

theorem loadTokensGo_race (refresh : Nat → RefreshOutcome)
    (reread : Nat → Option Tokens) :
    ∀ (fuel i : Nat),
      (∀ j, i ≤ j → j < i + fuel →
        refresh j = .invalidGrant ∧ reread j = none) →
      loadTokensGo refresh reread fuel i = .raceError := by
  intro fuel
  induction fuel with
  | zero => intro i _; rfl
  | succ f ih =>
    intro i h
    have h0 := h i (Nat.le_refl i) (by omega)
    rw [loadTokensGo, h0.1, h0.2]
    exact ih (i + 1) (fun j hj1 hj2 => h j (by omega) (by omega))

theorem loadTokensGo_reread (refresh : Nat → RefreshOutcome)
    (reread : Nat → Option Tokens) :
    ∀ (k fuel i : Nat) (t : Tokens), k < fuel →
      (∀ j, i ≤ j → j ≤ i + k → refresh j = .invalidGrant) →
      (∀ j, i ≤ j → j < i + k → reread j = none) →
      reread (i + k) = some t →
      loadTokensGo refresh reread fuel i = .tokens t := by
  intro k
  induction k with
  | zero =>
    intro fuel i t hk hr hn hre
    match fuel, hk with
    | f + 1, _ =>
      rw [loadTokensGo, hr i (Nat.le_refl i) (by omega)]
      rw [Nat.add_zero] at hre
      rw [hre]
  | succ k ih =>
    intro fuel i t hk hr hn hre
    match fuel, hk with
    | f + 1, hk =>
      rw [loadTokensGo, hr i (Nat.le_refl i) (by omega),
        hn i (Nat.le_refl i) (by omega)]
      refine ih f (i + 1) t (by omega)
        (fun j hj1 hj2 => hr j (by omega) (by omega))
        (fun j hj1 hj2 => hn j (by omega) (by omega)) ?_
      have : i + 1 + k = i + (k + 1) := by omega
      rw [this]
      exact hre

theorem loadTokensGo_upstream (refresh : Nat → RefreshOutcome)
    (reread : Nat → Option Tokens) :
    ∀ (k fuel i : Nat) (c : String), k < fuel →
      (∀ j, i ≤ j → j < i + k →
        refresh j = .invalidGrant ∧ reread j = none) →
      refresh (i + k) = .upstreamFailure c →
      loadTokensGo refresh reread fuel i = .upstreamError c := by
  intro k
  induction k with
  | zero =>
    intro fuel i c hk h hfc
    match fuel, hk with
    | f + 1, _ =>
      rw [Nat.add_zero] at hfc
      rw [loadTokensGo, hfc]
  | succ k ih =>
    intro fuel i c hk h hfc
    match fuel, hk with
    | f + 1, hk =>
      have h0 := h i (Nat.le_refl i) (by omega)
      rw [loadTokensGo, h0.1, h0.2]
      refine ih f (i + 1) c (by omega)
        (fun j hj1 hj2 => h j (by omega) (by omega)) ?_
      have : i + 1 + k = i + (k + 1) := by omega
      rw [this]
      exact hfc

/-- C9: the token-refresh race guard raises the distinguished race error after
exactly `max_retries` consecutive `invalid_grant` race failures (default
`max_retries = 3`); a concurrent writer's rotated tokens appearing on any
retry read are returned instead of raising; any upstream error other than
`invalid_grant` is never retried and propagates immediately. -/
theorem token_refresh_race_guard (s : AuthTokenStore)
    (refresh : Nat → RefreshOutcome) (reread : Nat → Option Tokens) :
    (({} : AuthTokenStore).max_retries = 3) ∧
    ((∀ i, i < s.max_retries → refresh i = .invalidGrant ∧ reread i = none) →
      loadTokens s refresh reread = .raceError) ∧
    (∀ k t, k < s.max_retries →
      (∀ i, i ≤ k → refresh i = .invalidGrant) →
      (∀ i, i < k → reread i = none) →
      reread k = some t →
      loadTokens s refresh reread = .tokens t) ∧
    (∀ k c, k < s.max_retries →
      (∀ i, i < k → refresh i = .invalidGrant ∧ reread i = none) →
      refresh k = .upstreamFailure c →
      loadTokens s refresh reread = .upstreamError c) := by
  refine ⟨rfl, ?_, ?_, ?_⟩
  · intro h
    exact loadTokensGo_race refresh reread s.max_retries 0
      (fun j hj1 hj2 => h j (by omega))
  · intro k t hk hr hn hre
    exact loadTokensGo_reread refresh reread k s.max_retries 0 t hk
      (fun j hj1 hj2 => hr j (by omega)) (fun j hj1 hj2 => hn j (by omega))
      (by rw [Nat.zero_add]; exact hre)
  · intro k c hk h hf
    exact loadTokensGo_upstream refresh reread k s.max_retries 0 c hk
      (fun j hj1 hj2 => h j (by omega)) (by rw [Nat.zero_add]; exact hf)

/-- C9 witness: with every attempt racing and no rotated tokens appearing, the
guard with the default three retries raises the race error. -/
theorem token_refresh_race_guard_witness :
    loadTokens {} (fun _ => .invalidGrant) (fun _ => none) = .raceError :=
  (token_refresh_race_guard {} (fun _ => .invalidGrant) (fun _ => none)).2.1
    (fun _ _ => ⟨rfl, rfl⟩)

/-- C3: for every organization handed to `_process_org_retention`, an omitted
inactivity threshold defaults to 90 days and an omitted grace period defaults
to 30 days (behaving exactly as if the field were set to the default); and an
organization the run actually processes always has a positive, non-null
`inactive_user_retention_days`, so only the grace-period default can fire in
a run. -/
theorem retention_defaults_applied (batchSize : Nat) (now : Int)
    (failing : Nat → Bool) (org : Org) (st : Store) :
    (retentionOrgFilter org = true →
      ∃ d, org.inactive_user_retention_days = some d ∧ 0 < d) ∧
    (org.inactive_user_retention_days = none →
      pyOrInt org.inactive_user_retention_days
        DEFAULT_INACTIVITY_THRESHOLD_DAYS = 90 ∧
      processOrgRetention batchSize now failing org st =
        processOrgRetention batchSize now failing
          { org with inactive_user_retention_days := some 90 } st) ∧
    (org.inactive_user_grace_period_days = none →
      pyOrInt org.inactive_user_grace_period_days DEFAULT_GRACE_PERIOD_DAYS = 30 ∧
      processOrgRetention batchSize now failing org st =
        processOrgRetention batchSize now failing
          { org with inactive_user_grace_period_days := some 30 } st) := by
  obtain ⟨i, days, grace, conv⟩ := org
  refine ⟨?_, ?_, ?_⟩
  · intro h
    unfold retentionOrgFilter at h
    cases days with
    | none => exact Bool.noConfusion h
    | some d => exact ⟨d, rfl, of_decide_eq_true h⟩
  · intro h
    cases days with
    | none => exact ⟨rfl, rfl⟩
    | some d => exact Option.noConfusion h
  · intro h
    cases grace with
    | none => exact ⟨rfl, rfl⟩
    | some g => exact Option.noConfusion h

/-- C3 witness: an org with both policy fields omitted behaves as one with 90
and 30 days set explicitly. -/
theorem retention_defaults_applied_witness :
    (pyOrInt (none : Option Int) DEFAULT_INACTIVITY_THRESHOLD_DAYS = 90 ∧
      processOrgRetention 50 0 (fun _ => false) { id := 1 } ⟨[], [], [], []⟩ =
        processOrgRetention 50 0 (fun _ => false)
          { id := 1, inactive_user_retention_days := some 90 } ⟨[], [], [], []⟩) ∧
    (pyOrInt (none : Option Int) DEFAULT_GRACE_PERIOD_DAYS = 30 ∧
      processOrgRetention 50 0 (fun _ => false) { id := 1 } ⟨[], [], [], []⟩ =
        processOrgRetention 50 0 (fun _ => false)
          { id := 1, inactive_user_grace_period_days := some 30 } ⟨[], [], [], []⟩) :=
  ⟨(retention_defaults_applied 50 0 (fun _ => false) { id := 1 }
      ⟨[], [], [], []⟩).2.1 rfl,
    (retention_defaults_applied 50 0 (fun _ => false) { id := 1 }
      ⟨[], [], [], []⟩).2.2 rfl⟩

/-- C10: each of the three phases reads at most `batch_size` member rows
(default 50), each cap applying independently; the mark phase's selection is
the first `batch_size` members passing the status filter, taken before any
activity filtering. -/
theorem batch_caps_each_phase (b : Nat) (graceThreshold : Int) (o : Nat)
    (members : List OrgMember) :
    (({} : InactiveUserDataRetentionProcessor).batch_size = 50) ∧
    markCandidates b o members = (members.filter (markSelectable o)).take b ∧
    (markCandidates b o members).length ≤ b ∧
    (deleteCandidates b graceThreshold o members).length ≤ b ∧
    (recoverCandidates b o members).length ≤ b ∧
    (∀ (threshold : Int) metas saas,
      markedMembers b threshold o metas saas members =
        (markCandidates b o members).filter
          (fun m => decide (lastActivityOrMin metas saas m.user_id o < threshold))) := by
  refine ⟨rfl, rfl, ?_, ?_, ?_, fun _ _ _ => rfl⟩
  · exact List.length_take_le b _
  · exact List.length_take_le b _
  · exact List.length_take_le b _

/-- C7: a member selected by the mark phase with no conversation activity at
all in the org is always marked `retention_pending` — for every inactivity
threshold Python can compute, i.e. whenever `now - days` does not underflow
`datetime.min` — and the audit entry's details record the activity as
`never`. -/
theorem never_active_always_marked (b : Nat) (now days : Int) (o : Nat)
    (st : Store) (m : OrgMember)
    (hm : m ∈ markCandidates b o st.members)
    (hnone : userLastActivity st.metas st.saas m.user_id o = none)
    (hmin : datetimeMin < now - days * secondsPerDay) :
    m ∈ markedMembers b (now - days * secondsPerDay) o st.metas st.saas
      st.members ∧
    (∀ x ∈ (markInactiveUsers b now o days st).1.members,
      keyMatches m x = true →
        x.retention_status = some "retention_pending" ∧
        x.retention_pending_since = some now) ∧
    markAuditEntry o st.metas st.saas m ∈
      (markInactiveUsers b now o days st).1.audits ∧
    (markAuditEntry o st.metas st.saas m).details =
      some "Last activity: never" ∧
    (markAuditEntry o st.metas st.saas m).action = "marked" := by
  have hla : lastActivityOrMin st.metas st.saas m.user_id o = datetimeMin := by
    unfold lastActivityOrMin
    rw [hnone]
    rfl
  have hmem : m ∈ markedMembers b (now - days * secondsPerDay) o st.metas
      st.saas st.members := by
    refine List.mem_filter.mpr ⟨hm, ?_⟩
    rw [hla]
    exact decide_eq_true hmin
  refine ⟨hmem, ?_, ?_, ?_, rfl⟩
  · intro x hx hk
    have hres : (markInactiveUsers b now o days st).1.members =
        st.members.map (markRowUpdate now
          (markedMembers b (now - days * secondsPerDay) o st.metas st.saas
            st.members)) := rfl
    rw [hres] at hx
    obtain ⟨x0, hx0, hfx⟩ := List.mem_map.mp hx
    by_cases hany : ((markedMembers b (now - days * secondsPerDay) o st.metas
        st.saas st.members).any (fun c => keyMatches c x0)) = true
    · rw [← hfx]
      unfold markRowUpdate
      rw [if_pos hany]
      exact ⟨rfl, rfl⟩
    · exfalso
      have hxx0 : x = x0 := by
        rw [← hfx]
        unfold markRowUpdate
        rw [if_neg hany]
      rw [hxx0] at hk
      exact hany (List.any_eq_true.mpr ⟨m, hmem, hk⟩)
  · have hres : (markInactiveUsers b now o days st).1.audits =
        st.audits ++ (markedMembers b (now - days * secondsPerDay) o st.metas
          st.saas st.members).map (markAuditEntry o st.metas st.saas) := rfl
    rw [hres]
    exact List.mem_append_right _ (List.mem_map.mpr ⟨m, hmem, rfl⟩)
  · show some (markDetails (lastActivityOrMin st.metas st.saas m.user_id o)) = _
    rw [hla]
    rfl

/-- C7 witness: a member of org 1 with no conversations at all is marked with
a `never` details string under the default 90-day threshold. -/
theorem never_active_always_marked_witness :
    ((⟨1, 7, none, none⟩ : OrgMember) ∈ markedMembers 50
      ((0 : Int) - 90 * secondsPerDay) 1 [] [] [⟨1, 7, none, none⟩]) ∧
    markAuditEntry 1 [] [] ⟨1, 7, none, none⟩ ∈
      (markInactiveUsers 50 0 1 90 ⟨[⟨1, 7, none, none⟩], [], [], []⟩).1.audits ∧
    (markAuditEntry 1 [] [] (⟨1, 7, none, none⟩ : OrgMember)).details =
      some "Last activity: never" := by
  have h := never_active_always_marked 50 0 90 1
    ⟨[⟨1, 7, none, none⟩], [], [], []⟩ ⟨1, 7, none, none⟩
    (by decide) rfl (by decide)
  exact ⟨h.1, h.2.2.1, h.2.2.2.1⟩

/-- C1 counterexample: the delete phase sets `retention_status =
'retention_deleted'` but never clears `retention_pending_since`, so after it
runs a member violates the claimed iff-invariant. -/
theorem pending_iff_counterexample :
    (deleteRetentionPendingUsers 50 (40 * secondsPerDay) 30 1 (fun _ => false)
      ⟨[⟨1, 7, some "retention_pending", some 0⟩], [], [], []⟩).1.members =
      [⟨1, 7, some "retention_deleted", some 0⟩] ∧
    ¬ pendingIffInvariant ⟨1, 7, some "retention_deleted", some 0⟩ := by
  constructor
  · decide
  · decide

theorem pendingIff_imp_retentionInv {m : OrgMember}
    (h : pendingIffInvariant m) : retentionInvariant m :=
  ⟨fun hs => h.mpr hs, fun hn => Or.inl (h.mp hn)⟩

/-- C1 (amended): assuming every member satisfies the iff-invariant
beforehand, the mark and recover phases preserve it exactly; the delete phase
preserves only the weakened form — a pending row has a non-null
`retention_pending_since`, and a non-null `retention_pending_since` implies
the status is `retention_pending` or `retention_deleted` — because it leaves
the timestamp set on rows it transitions to `retention_deleted`. -/
theorem retention_invariant_amended (b : Nat) (now days grace : Int) (o : Nat)
    (failing : Nat → Bool) (st : Store)
    (h : ∀ m ∈ st.members, pendingIffInvariant m) :
    (∀ m ∈ (markInactiveUsers b now o days st).1.members,
      pendingIffInvariant m) ∧
    (∀ m ∈ (recoverActiveUsers b now o days st).1.members,
      pendingIffInvariant m) ∧
    (∀ m ∈ (deleteRetentionPendingUsers b now grace o failing st).1.members,
      retentionInvariant m) := by
  refine ⟨?_, ?_, ?_⟩
  · intro m hm
    have hres : (markInactiveUsers b now o days st).1.members =
        st.members.map (markRowUpdate now (markedMembers b
          (now - days * secondsPerDay) o st.metas st.saas st.members)) := rfl
    rw [hres] at hm
    obtain ⟨x0, hx0, hfx⟩ := List.mem_map.mp hm
    rw [← hfx]
    unfold markRowUpdate
    split
    · exact ⟨fun _ => rfl, fun _ => by simp⟩
    · exact h x0 hx0
  · intro m hm
    have hres : (recoverActiveUsers b now o days st).1.members =
        st.members.map (recoverRowUpdate (recoveredMembers b
          (now - days * secondsPerDay) o st.metas st.saas st.members)) := rfl
    rw [hres] at hm
    obtain ⟨x0, hx0, hfx⟩ := List.mem_map.mp hm
    rw [← hfx]
    unfold recoverRowUpdate
    split
    · unfold pendingIffInvariant
      constructor
      · intro hn
        exact absurd rfl hn
      · intro hs
        exact absurd (Option.some.inj hs) (by decide)
    · exact h x0 hx0
  · intro m hm
    rw [deleteRetentionPendingUsers_eq] at hm
    simp only [] at hm
    by_cases hsucc : 0 < ((deleteCandidates b (now - grace * secondsPerDay) o
        st.members).filter (fun c => !failing c.user_id)).length
    · rw [if_pos hsucc] at hm
      rw [foldl_deleteOneUser_members] at hm
      obtain ⟨x0, hx0, hfx⟩ := List.mem_map.mp hm
      rw [← hfx]
      split
      · refine ⟨fun hs => absurd (Option.some.inj hs) (by decide), fun _ => ?_⟩
        exact Or.inr rfl
      · exact pendingIff_imp_retentionInv (h x0 hx0)
    · rw [if_neg hsucc] at hm
      exact pendingIff_imp_retentionInv (h m hm)

/-- C1 (amended) witness: a store with one pending member (and one active
member) satisfies the precondition, so all three phase conclusions hold on
it. -/
theorem retention_invariant_amended_witness :
    (∀ m ∈ (markInactiveUsers 50 0 1 90
      ⟨[⟨1, 7, some "retention_pending", some (-10)⟩, ⟨1, 8, none, none⟩],
        [], [], []⟩).1.members, pendingIffInvariant m) ∧
    (∀ m ∈ (recoverActiveUsers 50 0 1 90
      ⟨[⟨1, 7, some "retention_pending", some (-10)⟩, ⟨1, 8, none, none⟩],
        [], [], []⟩).1.members, pendingIffInvariant m) ∧
    (∀ m ∈ (deleteRetentionPendingUsers 50 0 30 1 (fun _ => false)
      ⟨[⟨1, 7, some "retention_pending", some (-10)⟩, ⟨1, 8, none, none⟩],
        [], [], []⟩).1.members, retentionInvariant m) :=
  retention_invariant_amended 50 0 90 30 1 (fun _ => false)
    ⟨[⟨1, 7, some "retention_pending", some (-10)⟩, ⟨1, 8, none, none⟩],
      [], [], []⟩ (by decide)

/-- C2 counterexample: two candidates past the grace period; the first is
processed successfully, the second raises.  The rollback discards the first
user's uncommitted transition and audit row as well, yet the returned count
is 1: nothing is persisted while the count reports one deletion. -/
theorem delete_rollback_counterexample :
    deleteRetentionPendingUsers 50 (40 * secondsPerDay) 30 1 (fun u => u == 8)
      ⟨[⟨1, 7, some "retention_pending", some 0⟩,
        ⟨1, 8, some "retention_pending", some 0⟩], [], [], []⟩ =
      (⟨[⟨1, 7, some "retention_pending", some 0⟩,
         ⟨1, 8, some "retention_pending", some 0⟩], [], [], []⟩, 1) ∧
    countStatus (deleteRetentionPendingUsers 50 (40 * secondsPerDay) 30 1
      (fun u => u == 8)
      ⟨[⟨1, 7, some "retention_pending", some 0⟩,
        ⟨1, 8, some "retention_pending", some 0⟩], [], [], []⟩).1.members
      "retention_deleted" = 0 := by
  constructor
  · decide
  · decide

theorem suffixAfterLastFailure_sublist_filter {α : Type} (failing : α → Bool)
    (cs : List α) :
    (suffixAfterLastFailure failing cs).Sublist
      (cs.filter (fun x => !failing x)) := by
  induction cs with
  | nil => exact List.Sublist.refl _
  | cons c rest ih =>
    rw [suffixAfterLastFailure]
    by_cases hr : rest.any failing = true
    · rw [if_pos hr, List.filter_cons]
      by_cases hc : failing c = true
      · simp only [hc, Bool.not_true, if_false]
        exact ih
      · simp only [Bool.not_eq_true] at hc
        simp only [hc, Bool.not_false, if_true]
        exact ih.trans (List.sublist_cons_self c _)
    · simp only [Bool.not_eq_true] at hr
      rw [if_neg (by simp [hr])]
      have hall : rest.filter (fun x => !failing x) = rest := by
        rw [List.filter_eq_self]
        intro a ha
        have : failing a = false := by
          rw [← Bool.not_eq_true]
          intro hfa
          have : rest.any failing = true := List.any_eq_true.mpr ⟨a, ha, hfa⟩
          rw [this] at hr
          exact Bool.noConfusion hr
        rw [this]
        rfl
      by_cases hc : failing c = true
      · rw [if_pos hc, List.filter_cons]
        simp only [hc, Bool.not_true, if_false]
        rw [hall]
        exact List.Sublist.refl _
      · simp only [Bool.not_eq_true] at hc
        rw [if_neg (by simp [hc]), List.filter_cons]
        simp only [hc, Bool.not_false, if_true]
        rw [hall]

/-- C2 (amended): a failure while deleting one user's data rolls back the
whole uncommitted session — discarding the transitions and audit rows of the
users already processed in the batch, not only the failing user's — the
failure is skipped and processing continues; the persisted state applies
exactly the candidates after the last failure, and the returned count is the
number of candidates processed without error, which can exceed the number of
transitions actually persisted. -/
theorem delete_phase_rollback_semantics (b : Nat) (now grace : Int) (o : Nat)
    (failing : Nat → Bool) (st : Store) :
    deleteRetentionPendingUsers b now grace o failing st =
      (let cs := deleteCandidates b (now - grace * secondsPerDay) o st.members
       let kept := suffixAfterLastFailure (fun c => failing c.user_id) cs
       let succ := (cs.filter (fun c => !failing c.user_id)).length
       (if 0 < succ then kept.foldl (deleteOneUser o) st else st, succ)) ∧
    (suffixAfterLastFailure (fun c => failing c.user_id)
        (deleteCandidates b (now - grace * secondsPerDay) o st.members)).length ≤
      (deleteRetentionPendingUsers b now grace o failing st).2 := by
  constructor
  · exact deleteRetentionPendingUsers_eq b now grace o failing st
  · rw [deleteRetentionPendingUsers_eq]
    simp only []
    exact (suffixAfterLastFailure_sublist_filter
      (fun (c : OrgMember) => failing c.user_id) _).length_le

/-- C5 counterexample: two expired conversations; the first is deleted
successfully, the second raises.  The rollback also undoes the first
conversation's deletions, yet the count reports 1: the batch commits with
nothing deleted. -/
theorem expiration_rollback_counterexample :
    processOrgConversations 100 (40 * secondsPerDay) 30 1 (fun cid => cid == 6)
      ⟨[], [⟨5, 0⟩, ⟨6, 0⟩], [⟨5, 2, 1⟩, ⟨6, 2, 1⟩], []⟩ =
      (⟨[], [⟨5, 0⟩, ⟨6, 0⟩], [⟨5, 2, 1⟩, ⟨6, 2, 1⟩], []⟩, 1) := by
  decide

theorem store_fields_eq {s1 s2 : Store} (h1 : s1.members = s2.members)
    (h2 : s1.metas = s2.metas) (h3 : s1.saas = s2.saas)
    (h4 : s1.audits = s2.audits) : s1 = s2 := by
  cases s1
  cases s2
  simp only [] at h1 h2 h3 h4
  rw [h1, h2, h3, h4]

/-- C5 (amended): each conversation's primary metadata row and shadow record
are removed together (the persisted state filters both tables by the same set
of conversation ids), and a per-conversation failure is skipped without
aborting the batch; but the rollback discards the uncommitted deletions of
the conversations processed earlier in the batch, so the persisted deletions
are exactly the candidates after the last failure, while the count returned
counts every candidate processed without error. -/
theorem expiration_rollback_semantics (b : Nat) (now days : Int) (o : Nat)
    (failing : Nat → Bool) (st : Store) :
    processOrgConversations b now days o failing st =
      (let cs := expiredCandidates b (now - days * secondsPerDay) o st.metas
        st.saas
       let kept := suffixAfterLastFailure (fun s => failing s.conversation_id) cs
       let succ := (cs.filter (fun s => !failing s.conversation_id)).length
       (if 0 < succ then
          { st with
              metas := st.metas.filter (fun m =>
                !(kept.any (fun s => m.conversation_id == s.conversation_id)))
              saas := st.saas.filter (fun x =>
                !(kept.any (fun s => x.conversation_id == s.conversation_id))) }
        else st, succ)) := by
  rw [processOrgConversations_eq]
  simp only []
  by_cases hsucc : 0 < ((expiredCandidates b (now - days * secondsPerDay) o
      st.metas st.saas).filter (fun s => !failing s.conversation_id)).length
  · rw [if_pos hsucc, if_pos hsucc]
    refine congrArg (fun z => (z, _)) ?_
    refine store_fields_eq ?_ ?_ ?_ ?_
    · exact (foldl_expireOne_members_audits _ st).1
    · exact foldl_expireOne_metas _ st
    · exact foldl_expireOne_saas _ st
    · exact (foldl_expireOne_members_audits _ st).2
  · rw [if_neg hsucc, if_neg hsucc]

/-- C8 counterexample: 51 pending members; the batch cap of 50 leaves user 50
unexamined, so although user 50's latest activity (timestamp 0) is within the
90-day threshold, the recovery phase leaves the row pending and recovers
nobody. -/
theorem recovery_batch_counterexample :
    ((0 : Int) - 90 * secondsPerDay ≤ 0) ∧
    userLastActivity [⟨100, 0⟩] [⟨100, 50, 1⟩] 50 1 = some 0 ∧
    (recoverActiveUsers 50 0 1 90
      ⟨(List.range 51).map
          (fun i => (⟨1, i, some "retention_pending", some 0⟩ : OrgMember)),
        [⟨100, 0⟩], [⟨100, 50, 1⟩], []⟩).2 = 0 ∧
    (⟨1, 50, some "retention_pending", some 0⟩ : OrgMember) ∈
      (recoverActiveUsers 50 0 1 90
        ⟨(List.range 51).map
            (fun i => (⟨1, i, some "retention_pending", some 0⟩ : OrgMember)),
          [⟨100, 0⟩], [⟨100, 50, 1⟩], []⟩).1.members := by
  refine ⟨by decide, by decide, by decide, by decide⟩

/-- C8 (amended): for every member selected by the recovery phase (among the
first `batch_size` pending members of the org): if the recomputed latest
activity is at or after `now` minus the threshold, every row with the
member's key is set back to `'active'` with `retention_pending_since`
cleared and a `recovered` audit entry is appended; if the member has no
activity, or activity still older than the threshold, its row is left
unchanged by the phase. -/
theorem recovery_semantics (b : Nat) (now days : Int) (o : Nat) (st : Store)
    (m : OrgMember) (hm : m ∈ recoverCandidates b o st.members) :
    ((recoverActiveUsers b now o days st).1.members =
      st.members.map (recoverRowUpdate (recoveredMembers b
        (now - days * secondsPerDay) o st.metas st.saas st.members))) ∧
    (∀ t, userLastActivity st.metas st.saas m.user_id o = some t →
      now - days * secondsPerDay ≤ t →
      (∀ x ∈ st.members, keyMatches m x = true →
        recoverRowUpdate (recoveredMembers b (now - days * secondsPerDay) o
          st.metas st.saas st.members) x =
          { x with retention_status := some "active",
                   retention_pending_since := none }) ∧
      recoverAuditEntry o st.metas st.saas m ∈
        (recoverActiveUsers b now o days st).1.audits) ∧
    ((userLastActivity st.metas st.saas m.user_id o = none ∨
      (∃ t, userLastActivity st.metas st.saas m.user_id o = some t ∧
        t < now - days * secondsPerDay)) →
      ∀ x ∈ st.members, keyMatches m x = true →
        recoverRowUpdate (recoveredMembers b (now - days * secondsPerDay) o
          st.metas st.saas st.members) x = x) := by
  refine ⟨rfl, ?_, ?_⟩
  · intro t ht hthr
    have hmem : m ∈ recoveredMembers b (now - days * secondsPerDay) o st.metas
        st.saas st.members := by
      refine List.mem_filter.mpr ⟨hm, ?_⟩
      rw [ht]
      exact decide_eq_true hthr
    constructor
    · intro x hx hk
      unfold recoverRowUpdate
      rw [if_pos (List.any_eq_true.mpr ⟨m, hmem, hk⟩)]
    · have hres : (recoverActiveUsers b now o days st).1.audits =
          st.audits ++ (recoveredMembers b (now - days * secondsPerDay) o
            st.metas st.saas st.members).map
              (recoverAuditEntry o st.metas st.saas) := rfl
      rw [hres]
      exact List.mem_append_right _ (List.mem_map.mpr ⟨m, hmem, rfl⟩)
  · intro hcase x hx hk
    unfold recoverRowUpdate
    rw [if_neg]
    intro hany
    obtain ⟨c, hc, hkc⟩ := List.any_eq_true.mp hany
    have huser : c.user_id = m.user_id := by
      unfold keyMatches at hk hkc
      rw [Bool.and_eq_true, beq_iff_eq, beq_iff_eq] at hk hkc
      rw [← hkc.2, hk.2]
    have hpred := (List.mem_filter.mp hc).2
    rw [huser] at hpred
    rcases hcase with hnone | ⟨t, ht, hlt⟩
    · rw [hnone] at hpred
      exact Bool.noConfusion hpred
    · rw [ht] at hpred
      exact absurd (of_decide_eq_true hpred) (by omega)

/-- C8 (amended) witness: a selected pending member with recent activity is
recovered and one with stale activity is left unchanged. -/
theorem recovery_semantics_witness :
    (∀ x ∈ [(⟨1, 7, some "retention_pending", some 0⟩ : OrgMember)],
      keyMatches ⟨1, 7, some "retention_pending", some 0⟩ x = true →
        recoverRowUpdate (recoveredMembers 50 ((0 : Int) - 90 * secondsPerDay) 1
          [⟨100, -5⟩] [⟨100, 7, 1⟩]
          [⟨1, 7, some "retention_pending", some 0⟩]) x =
          { x with retention_status := some "active",
                   retention_pending_since := none }) ∧
    recoverAuditEntry 1 [⟨100, -5⟩] [⟨100, 7, 1⟩]
        ⟨1, 7, some "retention_pending", some 0⟩ ∈
      (recoverActiveUsers 50 0 1 90
        ⟨[⟨1, 7, some "retention_pending", some 0⟩],
          [⟨100, -5⟩], [⟨100, 7, 1⟩], []⟩).1.audits := by
  have h := (recovery_semantics 50 0 90 1
    ⟨[⟨1, 7, some "retention_pending", some 0⟩],
      [⟨100, -5⟩], [⟨100, 7, 1⟩], []⟩
    ⟨1, 7, some "retention_pending", some 0⟩ (by decide)).2.1 (-5) rfl
    (by decide)
  exact h

/-! ### Counting transitions and audit rows -/

theorem transitionCount_map (l : List OrgMember) (f : OrgMember → OrgMember)
    (s : String) :
    transitionCount l (l.map f) s =
      l.countP (fun x => !(x.retention_status == some s) &&
        ((f x).retention_status == some s)) := by
  unfold transitionCount
  rw [zip_self_map, ← List.countP_eq_length_filter, List.countP_map]
  rfl

theorem transitionCount_refl (l : List OrgMember) (s : String) :
    transitionCount l l s = 0 := by
  induction l with
  | nil => rfl
  | cons a l ih =>
    unfold transitionCount at ih ⊢
    rw [List.zip_cons_cons, List.filter_cons]
    cases ha : (a.retention_status == some s) <;> simp [ha, ih]

theorem auditCount_append (l1 l2 : List RetentionAuditLog) (a : String) :
    auditCount (l1 ++ l2) a = auditCount l1 a + auditCount l2 a := by
  unfold auditCount
  rw [List.filter_append, List.length_append]

theorem auditCount_all {added : List RetentionAuditLog} {a : String}
    (h : ∀ e ∈ added, e.action = a) : auditCount added a = added.length := by
  unfold auditCount
  rw [← List.countP_eq_length_filter]
  have heq : added.countP (fun e => e.action == a) =
      added.countP (fun _ => true) :=
    list_countP_congr (fun e he => by rw [h e he]; exact beq_self_eq_true a)
  rw [heq, List.countP_true]

theorem auditCount_map_action {β : Type} (l : List β)
    (f : β → RetentionAuditLog) (a : String) (hf : ∀ x, (f x).action = a) :
    auditCount (l.map f) a = l.length := by
  rw [auditCount_all (fun e he => by
    obtain ⟨x, _, hh⟩ := List.mem_map.mp he
    rw [← hh]; exact hf x), List.length_map]

theorem markRowUpdate_key (now : Int) (tm : List OrgMember) (x : OrgMember) :
    memberKey (markRowUpdate now tm x) = memberKey x := by
  unfold markRowUpdate
  split <;> rfl

theorem recoverRowUpdate_key (tr : List OrgMember) (x : OrgMember) :
    memberKey (recoverRowUpdate tr x) = memberKey x := by
  unfold recoverRowUpdate
  split <;> rfl

theorem map_key_preserving {l : List OrgMember} {f : OrgMember → OrgMember}
    (hf : ∀ x, memberKey (f x) = memberKey x) :
    (l.map f).map memberKey = l.map memberKey := by
  rw [List.map_map]
  exact congrArg (fun g => List.map g l) (funext hf)

theorem markedMembers_sublist (b : Nat) (threshold : Int) (o : Nat)
    (metas : List StoredConversationMetadata)
    (saas : List StoredConversationMetadataSaas) (members : List OrgMember) :
    (markedMembers b threshold o metas saas members).Sublist members :=
  (List.filter_sublist _).trans
    ((List.take_sublist _ _).trans (List.filter_sublist _))

theorem recoveredMembers_sublist (b : Nat) (threshold : Int) (o : Nat)
    (metas : List StoredConversationMetadata)
    (saas : List StoredConversationMetadataSaas) (members : List OrgMember) :
    (recoveredMembers b threshold o metas saas members).Sublist members :=
  (List.filter_sublist _).trans
    ((List.take_sublist _ _).trans (List.filter_sublist _))

theorem deleteCandidates_sublist (b : Nat) (graceThreshold : Int) (o : Nat)
    (members : List OrgMember) :
    (deleteCandidates b graceThreshold o members).Sublist members :=
  (List.take_sublist _ _).trans (List.filter_sublist _)

theorem mark_transitionCount (b : Nat) (now days : Int) (o : Nat) (st : Store)
    (hnd : (st.members.map memberKey).Nodup) :
    transitionCount st.members (markInactiveUsers b now o days st).1.members
      "retention_pending" =
      (markedMembers b (now - days * secondsPerDay) o st.metas st.saas
        st.members).length := by
  set tm := markedMembers b (now - days * secondsPerDay) o st.metas st.saas
    st.members with htm
  have hres : (markInactiveUsers b now o days st).1.members =
      st.members.map (markRowUpdate now tm) := rfl
  rw [hres, transitionCount_map]
  have hsub : tm.Sublist st.members := markedMembers_sublist _ _ _ _ _ _
  rw [← countP_keyMatch hsub hnd]
  refine list_countP_congr (fun x hx => ?_)
  by_cases hany : (tm.any fun c => keyMatches c x) = true
  · rw [hany]
    unfold markRowUpdate
    rw [if_pos hany]
    obtain ⟨c, hc, hk⟩ := List.any_eq_true.mp hany
    have hxc : x = c := eq_of_keyMatches_mem hsub hnd hx hc hk
    have hsel : markSelectable o c = true := by
      have h1 : c ∈ markCandidates b o st.members := List.mem_of_mem_filter hc
      have h2 : c ∈ st.members.filter (markSelectable o) :=
        (List.take_sublist _ _).subset h1
      exact (List.mem_filter.mp h2).2
    have hnp : (x.retention_status == some "retention_pending") = false := by
      rw [hxc]
      unfold markSelectable at hsel
      rw [Bool.and_eq_true] at hsel
      have hor := hsel.2
      rw [Bool.or_eq_true] at hor
      rcases hor with h | h
      · rw [beq_iff_eq] at h
        rw [h]
        rfl
      · rw [beq_iff_eq] at h
        rw [h]
        decide
    rw [hnp, Bool.not_false, Bool.true_and]
    rfl
  · have hany0 : (tm.any fun c => keyMatches c x) = false := by
      rwa [Bool.not_eq_true] at hany
    rw [hany0]
    unfold markRowUpdate
    rw [if_neg hany]
    cases hst : (x.retention_status == some "retention_pending") <;>
      simp [hst]

theorem recover_transitionCount (b : Nat) (now days : Int) (o : Nat)
    (st : Store) (hnd : (st.members.map memberKey).Nodup) :
    transitionCount st.members (recoverActiveUsers b now o days st).1.members
      "active" =
      (recoveredMembers b (now - days * secondsPerDay) o st.metas st.saas
        st.members).length := by
  set tr := recoveredMembers b (now - days * secondsPerDay) o st.metas st.saas
    st.members with htr
  have hres : (recoverActiveUsers b now o days st).1.members =
      st.members.map (recoverRowUpdate tr) := rfl
  rw [hres, transitionCount_map]
  have hsub : tr.Sublist st.members := recoveredMembers_sublist _ _ _ _ _ _
  rw [← countP_keyMatch hsub hnd]
  refine list_countP_congr (fun x hx => ?_)
  by_cases hany : (tr.any fun c => keyMatches c x) = true
  · rw [hany]
    unfold recoverRowUpdate
    rw [if_pos hany]
    obtain ⟨c, hc, hk⟩ := List.any_eq_true.mp hany
    have hxc : x = c := eq_of_keyMatches_mem hsub hnd hx hc hk
    have hsel : recoverSelectable o c = true := by
      have h1 : c ∈ recoverCandidates b o st.members := List.mem_of_mem_filter hc
      have h2 : c ∈ st.members.filter (recoverSelectable o) :=
        (List.take_sublist _ _).subset h1
      exact (List.mem_filter.mp h2).2
    have hnp : (x.retention_status == some "active") = false := by
      rw [hxc]
      unfold recoverSelectable at hsel
      rw [Bool.and_eq_true] at hsel
      have h2 := hsel.2
      rw [beq_iff_eq] at h2
      rw [h2]
      decide
    rw [hnp, Bool.not_false, Bool.true_and]
    rfl
  · have hany0 : (tr.any fun c => keyMatches c x) = false := by
      rwa [Bool.not_eq_true] at hany
    rw [hany0]
    unfold recoverRowUpdate
    rw [if_neg hany]
    cases hst : (x.retention_status == some "active") <;> simp [hst]

theorem delete_transitionCount (b : Nat) (now grace : Int) (o : Nat)
    (failing : Nat → Bool) (st : Store)
    (hnd : (st.members.map memberKey).Nodup) :
    transitionCount st.members
      (deleteRetentionPendingUsers b now grace o failing st).1.members
      "retention_deleted" =
      (suffixAfterLastFailure (fun c => failing c.user_id)
        (deleteCandidates b (now - grace * secondsPerDay) o st.members)).length := by
  rw [deleteRetentionPendingUsers_eq]
  simp only []
  set cs := deleteCandidates b (now - grace * secondsPerDay) o st.members
    with hcs
  set kept := suffixAfterLastFailure (fun c => failing c.user_id) cs with hkept
  have hsubcs : cs.Sublist st.members := deleteCandidates_sublist _ _ _ _
  have hsub : kept.Sublist st.members :=
    (suffixAfterLastFailure_sublist _ _).trans hsubcs
  by_cases hsucc : 0 < (cs.filter (fun c => !failing c.user_id)).length
  · rw [if_pos hsucc, foldl_deleteOneUser_members, transitionCount_map]
    rw [← countP_keyMatch hsub hnd]
    refine list_countP_congr (fun x hx => ?_)
    by_cases hany : (kept.any fun c => keyMatches c x) = true
    · rw [hany, if_pos rfl]
      obtain ⟨c, hc, hk⟩ := List.any_eq_true.mp hany
      have hxc : x = c := eq_of_keyMatches_mem hsub hnd hx hc hk
      have hsel : deleteSelectable o (now - grace * secondsPerDay) c = true := by
        have h1 : c ∈ cs := (suffixAfterLastFailure_sublist _ _).subset hc
        have h2 : c ∈ st.members.filter
            (deleteSelectable o (now - grace * secondsPerDay)) :=
          (List.take_sublist _ _).subset h1
        exact (List.mem_filter.mp h2).2
      have hnp : (x.retention_status == some "retention_deleted") = false := by
        rw [hxc]
        unfold deleteSelectable at hsel
        rw [Bool.and_eq_true, Bool.and_eq_true] at hsel
        have h2 := hsel.1.2
        rw [beq_iff_eq] at h2
        rw [h2]
        decide
      rw [hnp, Bool.not_false, Bool.true_and]
      rfl
    · have hany0 : (kept.any fun c => keyMatches c x) = false := by
        rwa [Bool.not_eq_true] at hany
      rw [hany0]
      simp only [Bool.false_eq_true, if_false]
      cases hst : (x.retention_status == some "retention_deleted") <;>
        simp [hst]
  · rw [if_neg hsucc, transitionCount_refl]
    have hzero : (cs.filter (fun c => !failing c.user_id)).length = 0 := by
      omega
    have hnil : cs.filter (fun c => !failing c.user_id) = [] :=
      List.length_eq_zero.mp hzero
    have : kept.Sublist (cs.filter (fun c => !failing c.user_id)) :=
      suffixAfterLastFailure_sublist_filter _ _
    rw [hnil] at this
    rw [List.sublist_nil.mp this]
    rfl

/-- C4: per phase, on a member table with distinct primary keys, the number of
persisted audit rows added with the matching action (`marked`, `deleted`,
`recovered`) equals the number of member rows that transitioned (to
`retention_pending`, `retention_deleted`, `active` respectively): no
transition persists without its audit row and no audit row without its
transition (in the delete phase a rollback discards a user's transition and
audit row together).  Each phase preserves the keys, so the property holds
for all three phases of a run. -/
theorem audit_transition_bijection (b : Nat) (now days grace : Int) (o : Nat)
    (failing : Nat → Bool) (st : Store)
    (hnd : (st.members.map memberKey).Nodup) :
    (auditCount (markInactiveUsers b now o days st).1.audits "marked" =
      auditCount st.audits "marked" +
        transitionCount st.members
          (markInactiveUsers b now o days st).1.members "retention_pending") ∧
    (auditCount (deleteRetentionPendingUsers b now grace o failing st).1.audits
        "deleted" =
      auditCount st.audits "deleted" +
        transitionCount st.members
          (deleteRetentionPendingUsers b now grace o failing st).1.members
          "retention_deleted") ∧
    (auditCount (recoverActiveUsers b now o days st).1.audits "recovered" =
      auditCount st.audits "recovered" +
        transitionCount st.members
          (recoverActiveUsers b now o days st).1.members "active") ∧
    ((markInactiveUsers b now o days st).1.members.map memberKey =
      st.members.map memberKey) ∧
    ((deleteRetentionPendingUsers b now grace o failing st).1.members.map
        memberKey = st.members.map memberKey) ∧
    ((recoverActiveUsers b now o days st).1.members.map memberKey =
      st.members.map memberKey) := by
  refine ⟨?_, ?_, ?_, ?_, ?_, ?_⟩
  · have hres : (markInactiveUsers b now o days st).1.audits =
        st.audits ++ (markedMembers b (now - days * secondsPerDay) o st.metas
          st.saas st.members).map (markAuditEntry o st.metas st.saas) := rfl
    rw [hres, auditCount_append,
      auditCount_map_action
        (markedMembers b (now - days * secondsPerDay) o st.metas st.saas
          st.members)
        (markAuditEntry o st.metas st.saas) "marked" (fun _ => rfl),
      mark_transitionCount b now days o st hnd]
  · rw [delete_transitionCount b now grace o failing st hnd,
      deleteRetentionPendingUsers_eq]
    simp only []
    by_cases hsucc : 0 < ((deleteCandidates b (now - grace * secondsPerDay) o
        st.members).filter (fun c => !failing c.user_id)).length
    · rw [if_pos hsucc]
      obtain ⟨added, heq, hlen, hact⟩ := foldl_deleteOneUser_audits o
        (suffixAfterLastFailure (fun c => failing c.user_id)
          (deleteCandidates b (now - grace * secondsPerDay) o st.members)) st
      rw [heq, auditCount_append, auditCount_all hact, hlen]
    · rw [if_neg hsucc]
      have hzero : ((deleteCandidates b (now - grace * secondsPerDay) o
          st.members).filter (fun c => !failing c.user_id)).length = 0 := by
        omega
      have hnil := List.length_eq_zero.mp hzero
      have hsubnil : (suffixAfterLastFailure (fun c => failing c.user_id)
          (deleteCandidates b (now - grace * secondsPerDay) o
            st.members)).Sublist
          ((deleteCandidates b (now - grace * secondsPerDay) o
            st.members).filter (fun c => !failing c.user_id)) :=
        suffixAfterLastFailure_sublist_filter _ _
      rw [hnil] at hsubnil
      rw [List.sublist_nil.mp hsubnil]
      rfl
  · have hres : (recoverActiveUsers b now o days st).1.audits =
        st.audits ++ (recoveredMembers b (now - days * secondsPerDay) o
          st.metas st.saas st.members).map
            (recoverAuditEntry o st.metas st.saas) := rfl
    rw [hres, auditCount_append,
      auditCount_map_action
        (recoveredMembers b (now - days * secondsPerDay) o st.metas st.saas
          st.members)
        (recoverAuditEntry o st.metas st.saas) "recovered" (fun _ => rfl),
      recover_transitionCount b now days o st hnd]
  · exact map_key_preserving (markRowUpdate_key now _)
  · rw [deleteRetentionPendingUsers_eq]
    simp only []
    by_cases hsucc : 0 < ((deleteCandidates b (now - grace * secondsPerDay) o
        st.members).filter (fun c => !failing c.user_id)).length
    · rw [if_pos hsucc, foldl_deleteOneUser_members]
      refine map_key_preserving (fun x => ?_)
      split <;> rfl
    · rw [if_neg hsucc]
  · exact map_key_preserving (recoverRowUpdate_key _)

/-- C4 witness: a store with a markable member and a deletable member, with
distinct keys, exhibits the counting equalities. -/
theorem audit_transition_bijection_witness :
    (auditCount (markInactiveUsers 50 0 1 90
      ⟨[⟨1, 7, none, none⟩,
        ⟨1, 8, some "retention_pending", some (-5184000)⟩], [], [], []⟩).1.audits
      "marked" =
      auditCount ([] : List RetentionAuditLog) "marked" +
        transitionCount
          [⟨1, 7, none, none⟩, ⟨1, 8, some "retention_pending", some (-5184000)⟩]
          (markInactiveUsers 50 0 1 90
            ⟨[⟨1, 7, none, none⟩,
              ⟨1, 8, some "retention_pending", some (-5184000)⟩],
              [], [], []⟩).1.members "retention_pending") ∧
    (auditCount (deleteRetentionPendingUsers 50 0 30 1 (fun _ => false)
      ⟨[⟨1, 7, none, none⟩,
        ⟨1, 8, some "retention_pending", some (-5184000)⟩], [], [], []⟩).1.audits
      "deleted" =
      auditCount ([] : List RetentionAuditLog) "deleted" +
        transitionCount
          [⟨1, 7, none, none⟩, ⟨1, 8, some "retention_pending", some (-5184000)⟩]
          (deleteRetentionPendingUsers 50 0 30 1 (fun _ => false)
            ⟨[⟨1, 7, none, none⟩,
              ⟨1, 8, some "retention_pending", some (-5184000)⟩],
              [], [], []⟩).1.members "retention_deleted") := by
  have h := audit_transition_bijection 50 0 90 30 1 (fun _ => false)
    ⟨[⟨1, 7, none, none⟩, ⟨1, 8, some "retention_pending", some (-5184000)⟩],
      [], [], []⟩ (by decide)
  exact ⟨h.1, h.2.1⟩

/-! ### A settled organization: a second run makes no change -/

theorem mark_noop (b : Nat) (now days : Int) (o : Nat) (st : Store)
    (h : markedMembers b (now - days * secondsPerDay) o st.metas st.saas
      st.members = []) :
    markInactiveUsers b now o days st = (st, 0) := by
  have hmap : st.members.map (markRowUpdate now ([] : List OrgMember)) =
      st.members := by
    have h0 : (markRowUpdate now ([] : List OrgMember)) = fun x => x :=
      funext (fun x => rfl)
    rw [h0, List.map_id']
  unfold markInactiveUsers
  simp only [h, hmap, List.map_nil, List.append_nil, List.length_nil]

theorem recover_noop (b : Nat) (now days : Int) (o : Nat) (st : Store)
    (h : recoveredMembers b (now - days * secondsPerDay) o st.metas st.saas
      st.members = []) :
    recoverActiveUsers b now o days st = (st, 0) := by
  have hmap : st.members.map (recoverRowUpdate ([] : List OrgMember)) =
      st.members := by
    have h0 : (recoverRowUpdate ([] : List OrgMember)) = fun x => x :=
      funext (fun x => rfl)
    rw [h0, List.map_id']
  unfold recoverActiveUsers
  simp only [h, hmap, List.map_nil, List.append_nil, List.length_nil]

theorem delete_noop (b : Nat) (now grace : Int) (o : Nat) (failing : Nat → Bool)
    (st : Store)
    (h : deleteCandidates b (now - grace * secondsPerDay) o st.members = []) :
    deleteRetentionPendingUsers b now grace o failing st = (st, 0) := by
  unfold deleteRetentionPendingUsers
  simp only [h]
  rfl

theorem length_filter_le_of_imp {l : List OrgMember} {p q : OrgMember → Bool}
    (h : ∀ x ∈ l, p x = true → q x = true) :
    (l.filter p).length ≤ (l.filter q).length := by
  rw [← List.countP_eq_length_filter, ← List.countP_eq_length_filter]
  exact List.countP_mono_left h

theorem candidates_take_all {l : List OrgMember} {p : OrgMember → Bool}
    {b : Nat} {o : Nat}
    (hb : (l.filter (fun m => m.org_id == o)).length ≤ b)
    (himp : ∀ x ∈ l, p x = true → (x.org_id == o) = true) :
    (l.filter p).take b = l.filter p :=
  List.take_of_length_le ((length_filter_le_of_imp himp).trans hb)

theorem markSelectable_props {o : Nat} {m : OrgMember}
    (h : markSelectable o m = true) :
    m.org_id = o ∧
      (m.retention_status = none ∨ m.retention_status = some "active") := by
  unfold markSelectable at h
  rw [Bool.and_eq_true] at h
  refine ⟨by have := h.1; rwa [beq_iff_eq] at this, ?_⟩
  have hor := h.2
  rw [Bool.or_eq_true] at hor
  rcases hor with h2 | h2 <;> rw [beq_iff_eq] at h2
  · exact Or.inl h2
  · exact Or.inr h2

theorem settled_mark_empty (b : Nat) (now days gthr : Int) (o : Nat)
    (st : Store) (hs : settled (now - days * secondsPerDay) gthr o st) :
    markedMembers b (now - days * secondsPerDay) o st.metas st.saas
      st.members = [] := by
  rw [markedMembers, List.filter_eq_nil_iff]
  intro m hm hpred
  have hmem : m ∈ st.members :=
    ((List.take_sublist _ _).trans (List.filter_sublist _)).subset hm
  have hsel : markSelectable o m = true := by
    have h2 : m ∈ st.members.filter (markSelectable o) :=
      (List.take_sublist _ _).subset hm
    exact (List.mem_filter.mp h2).2
  obtain ⟨horg, hstat⟩ := markSelectable_props hsel
  have hthr := ((hs m hmem horg).1) hstat
  have := of_decide_eq_true hpred
  omega

theorem settled_delete_empty (b : Nat) (now grace days : Int) (o : Nat)
    (st : Store) (hs : settled (now - days * secondsPerDay)
      (now - grace * secondsPerDay) o st) :
    deleteCandidates b (now - grace * secondsPerDay) o st.members = [] := by
  unfold deleteCandidates
  have hnil : st.members.filter
      (deleteSelectable o (now - grace * secondsPerDay)) = [] := by
    rw [List.filter_eq_nil_iff]
    intro m hm hsel
    unfold deleteSelectable at hsel
    rw [Bool.and_eq_true, Bool.and_eq_true] at hsel
    have horg : m.org_id = o := by
      have := hsel.1.1; rwa [beq_iff_eq] at this
    have hpend : m.retention_status = some "retention_pending" := by
      have := hsel.1.2; rwa [beq_iff_eq] at this
    have hsince := hsel.2
    cases ht : m.retention_pending_since with
    | none => rw [ht] at hsince; exact Bool.noConfusion hsince
    | some t =>
      rw [ht] at hsince
      have hlt := of_decide_eq_true hsince
      have hge := (((hs m hm horg).2) hpend).1 t ht
      omega
  rw [hnil, List.take_nil]

theorem settled_recover_empty (b : Nat) (now days gthr : Int) (o : Nat)
    (st : Store) (hs : settled (now - days * secondsPerDay) gthr o st) :
    recoveredMembers b (now - days * secondsPerDay) o st.metas st.saas
      st.members = [] := by
  rw [recoveredMembers, List.filter_eq_nil_iff]
  intro m hm hpred
  have hmem : m ∈ st.members :=
    ((List.take_sublist _ _).trans (List.filter_sublist _)).subset hm
  have hsel : recoverSelectable o m = true := by
    have h2 : m ∈ st.members.filter (recoverSelectable o) :=
      (List.take_sublist _ _).subset hm
    exact (List.mem_filter.mp h2).2
  unfold recoverSelectable at hsel
  rw [Bool.and_eq_true] at hsel
  have horg : m.org_id = o := by
    have := hsel.1; rwa [beq_iff_eq] at this
  have hpend : m.retention_status = some "retention_pending" := by
    have := hsel.2; rwa [beq_iff_eq] at this
  have hla := (((hs m hmem horg).2) hpend).2
  cases hval : userLastActivity st.metas st.saas m.user_id o with
  | none => rw [hval] at hpred; exact Bool.noConfusion hpred
  | some la =>
    rw [hval] at hpred
    have hge := of_decide_eq_true hpred
    rcases hla with hnone | hbound
    · rw [hval] at hnone; exact Option.noConfusion hnone
    · have := hbound la hval
      omega

theorem settled_run (b : Nat) (now : Int) (failing : Nat → Bool) (org : Org)
    (st : Store)
    (hs : settled
      (now - pyOrInt org.inactive_user_retention_days
        DEFAULT_INACTIVITY_THRESHOLD_DAYS * secondsPerDay)
      (now - pyOrInt org.inactive_user_grace_period_days
        DEFAULT_GRACE_PERIOD_DAYS * secondsPerDay)
      org.id st) :
    processOrgRetention b now failing org st = (st, 0, 0, 0) := by
  have h1 := mark_noop b now
    (pyOrInt org.inactive_user_retention_days DEFAULT_INACTIVITY_THRESHOLD_DAYS)
    org.id st (settled_mark_empty b now _ _ org.id st hs)
  have h2 := delete_noop b now
    (pyOrInt org.inactive_user_grace_period_days DEFAULT_GRACE_PERIOD_DAYS)
    org.id failing st (settled_delete_empty b now _ _ org.id st hs)
  have h3 := recover_noop b now
    (pyOrInt org.inactive_user_retention_days DEFAULT_INACTIVITY_THRESHOLD_DAYS)
    org.id st (settled_recover_empty b now _ _ org.id st hs)
  unfold processOrgRetention
  simp only [h1, h2, h3]

theorem delete_phase_nofail (b : Nat) (now grace : Int) (o : Nat) (st : Store) :
    (deleteRetentionPendingUsers b now grace o (fun _ => false) st).1 =
      (deleteCandidates b (now - grace * secondsPerDay) o st.members).foldl
        (deleteOneUser o) st := by
  rw [deleteRetentionPendingUsers_eq]
  simp only []
  have hfilterall : (deleteCandidates b (now - grace * secondsPerDay) o
      st.members).filter (fun c => !(fun _ : Nat => false) c.user_id) =
      deleteCandidates b (now - grace * secondsPerDay) o st.members :=
    List.filter_eq_self.mpr (fun x _ => rfl)
  have hanyfalse : ((deleteCandidates b (now - grace * secondsPerDay) o
      st.members).any (fun c => (fun _ : Nat => false) c.user_id)) = false := by
    rw [Bool.eq_false_iff]
    intro h
    obtain ⟨c, _, hc⟩ := List.any_eq_true.mp h
    exact Bool.noConfusion hc
  rw [hfilterall, suffixAfterLastFailure_of_not_any _ _ hanyfalse]
  by_cases hlen : 0 < (deleteCandidates b (now - grace * secondsPerDay) o
      st.members).length
  · rw [if_pos hlen]
  · rw [if_neg hlen]
    have hnil : deleteCandidates b (now - grace * secondsPerDay) o
        st.members = [] := List.length_eq_zero.mp (by omega)
    rw [hnil, List.foldl_nil]

theorem markRowUpdate_org (now : Int) (tm : List OrgMember) (x : OrgMember) :
    (markRowUpdate now tm x).org_id = x.org_id := by
  unfold markRowUpdate; split <;> rfl

theorem markRowUpdate_user (now : Int) (tm : List OrgMember) (x : OrgMember) :
    (markRowUpdate now tm x).user_id = x.user_id := by
  unfold markRowUpdate; split <;> rfl

theorem recoverRowUpdate_org (tr : List OrgMember) (x : OrgMember) :
    (recoverRowUpdate tr x).org_id = x.org_id := by
  unfold recoverRowUpdate; split <;> rfl

theorem recoverRowUpdate_user (tr : List OrgMember) (x : OrgMember) :
    (recoverRowUpdate tr x).user_id = x.user_id := by
  unfold recoverRowUpdate; split <;> rfl

theorem run_establishes_settled (b : Nat) (now days grace : Int) (o : Nat)
    (st : Store)
    (hb : (st.members.filter (fun m => m.org_id == o)).length ≤ b)
    (hg : 0 < grace)
    (hmin : datetimeMin < now - days * secondsPerDay)
    (hconv : (st.saas.map (fun s => s.conversation_id)).Nodup) :
    settled (now - days * secondsPerDay) (now - grace * secondsPerDay) o
      (recoverActiveUsers b now o days
        (deleteRetentionPendingUsers b now grace o (fun _ => false)
          (markInactiveUsers b now o days st).1).1).1 := by
  obtain ⟨aSt, haSt⟩ : ∃ s, (markInactiveUsers b now o days st).1 = s := ⟨_, rfl⟩
  rw [haSt]
  have haM : aSt.members = st.members.map (markRowUpdate now
      (markedMembers b (now - days * secondsPerDay) o st.metas st.saas
        st.members)) := by rw [← haSt]; rfl
  have haMet : aSt.metas = st.metas := by rw [← haSt]; rfl
  have haSa : aSt.saas = st.saas := by rw [← haSt]; rfl
  obtain ⟨bbSt, hbbSt⟩ : ∃ s,
      (deleteRetentionPendingUsers b now grace o (fun _ => false) aSt).1 = s :=
    ⟨_, rfl⟩
  rw [hbbSt]
  have hbb1 : bbSt = (deleteCandidates b (now - grace * secondsPerDay) o
      aSt.members).foldl (deleteOneUser o) aSt := by
    rw [← hbbSt]
    exact delete_phase_nofail b now grace o aSt
  have hbbM : bbSt.members = aSt.members.map (fun z =>
      if ((deleteCandidates b (now - grace * secondsPerDay) o
        aSt.members).any fun c => keyMatches c z) = true then
        { z with retention_status := some "retention_deleted" }
      else z) := by
    rw [hbb1]
    exact foldl_deleteOneUser_members o _ aSt
  have hbbla : ∀ u, (∀ c ∈ deleteCandidates b (now - grace * secondsPerDay) o
      aSt.members, (u == c.user_id) = false) →
      userLastActivity bbSt.metas bbSt.saas u o =
        userLastActivity st.metas st.saas u o := by
    intro u hu
    rw [hbb1,
      foldl_deleteOneUser_userLastActivity o _ aSt u hu
        (by rw [haSa]; exact hconv),
      haMet, haSa]
  have horgA : (aSt.members.filter (fun m => m.org_id == o)).length ≤ b := by
    have heq : (aSt.members.filter (fun m => m.org_id == o)).length =
        (st.members.filter (fun m => m.org_id == o)).length := by
      rw [haM, ← List.countP_eq_length_filter, ← List.countP_eq_length_filter,
        List.countP_map]
      refine list_countP_congr (fun z _ => ?_)
      show ((markRowUpdate now _ z).org_id == o) = (z.org_id == o)
      rw [markRowUpdate_org]
    omega
  have horgB : (bbSt.members.filter (fun m => m.org_id == o)).length ≤ b := by
    have heq : (bbSt.members.filter (fun m => m.org_id == o)).length =
        (aSt.members.filter (fun m => m.org_id == o)).length := by
      rw [hbbM, ← List.countP_eq_length_filter, ← List.countP_eq_length_filter,
        List.countP_map]
      refine list_countP_congr (fun z _ => ?_)
      show ((if _ then { z with retention_status := some "retention_deleted" }
        else z).org_id == o) = (z.org_id == o)
      split <;> rfl
    omega
  have hmarkAll : markCandidates b o st.members =
      st.members.filter (markSelectable o) := by
    unfold markCandidates
    refine candidates_take_all hb (fun x _ hsel => ?_)
    unfold markSelectable at hsel
    rw [Bool.and_eq_true] at hsel
    exact hsel.1
  have hdelAll : deleteCandidates b (now - grace * secondsPerDay) o
      aSt.members = aSt.members.filter
        (deleteSelectable o (now - grace * secondsPerDay)) := by
    unfold deleteCandidates
    refine candidates_take_all horgA (fun x _ hsel => ?_)
    unfold deleteSelectable at hsel
    rw [Bool.and_eq_true, Bool.and_eq_true] at hsel
    exact hsel.1.1
  have hrecAll : recoverCandidates b o bbSt.members =
      bbSt.members.filter (recoverSelectable o) := by
    unfold recoverCandidates
    refine candidates_take_all horgB (fun x _ hsel => ?_)
    unfold recoverSelectable at hsel
    rw [Bool.and_eq_true] at hsel
    exact hsel.1
  have hdelsOrg : ∀ c ∈ deleteCandidates b (now - grace * secondsPerDay) o
      aSt.members, c.org_id = o := by
    intro c hc
    rw [hdelAll] at hc
    have hsel := (List.mem_filter.mp hc).2
    unfold deleteSelectable at hsel
    rw [Bool.and_eq_true, Bool.and_eq_true] at hsel
    have := hsel.1.1
    rwa [beq_iff_eq] at this
  unfold settled
  intro y hy horgY
  have hcM : (recoverActiveUsers b now o days bbSt).1.members =
      bbSt.members.map (recoverRowUpdate (recoveredMembers b
        (now - days * secondsPerDay) o bbSt.metas bbSt.saas bbSt.members)) :=
    rfl
  rw [hcM] at hy
  obtain ⟨y2, hy2, hy2eq⟩ := List.mem_map.mp hy
  rw [hbbM] at hy2
  obtain ⟨y1, hy1, hy1eq⟩ := List.mem_map.mp hy2
  rw [haM] at hy1
  obtain ⟨x, hx, hxeq⟩ := List.mem_map.mp hy1
  have h1o : y1.org_id = x.org_id := by
    rw [← hxeq]; exact markRowUpdate_org now _ x
  have h2o : y2.org_id = y1.org_id := by
    rw [← hy1eq]
    show (if ((deleteCandidates b (now - grace * secondsPerDay) o
        aSt.members).any fun c => keyMatches c y1) = true then
        { y1 with retention_status := some "retention_deleted" }
      else y1).org_id = y1.org_id
    split <;> rfl
  have h3o : y.org_id = y2.org_id := by
    rw [← hy2eq]; exact recoverRowUpdate_org _ y2
  have horgx : x.org_id = o := by
    rw [← h1o, ← h2o, ← h3o]; exact horgY
  have h1u : y1.user_id = x.user_id := by
    rw [← hxeq]; exact markRowUpdate_user now _ x
  have h2u : y2.user_id = y1.user_id := by
    rw [← hy1eq]
    show (if ((deleteCandidates b (now - grace * secondsPerDay) o
        aSt.members).any fun c => keyMatches c y1) = true then
        { y1 with retention_status := some "retention_deleted" }
      else y1).user_id = y1.user_id
    split <;> rfl
  have h3u : y.user_id = y2.user_id := by
    rw [← hy2eq]; exact recoverRowUpdate_user _ y2
  have hyux : y.user_id = x.user_id := by rw [h3u, h2u, h1u]
  by_cases hM3 : ((recoveredMembers b (now - days * secondsPerDay) o bbSt.metas
      bbSt.saas bbSt.members).any fun c => keyMatches c y2) = true
  · -- recovered: y is active with cleared timestamp and recent activity
    have hyshape : y = { y2 with retention_status := some "active",
                                  retention_pending_since := none } := by
      rw [← hy2eq]
      unfold recoverRowUpdate
      rw [if_pos hM3]
    obtain ⟨cR, hcR, hkR⟩ := List.any_eq_true.mp hM3
    have hcRuser : cR.user_id = y2.user_id := by
      unfold keyMatches at hkR
      rw [Bool.and_eq_true, beq_iff_eq, beq_iff_eq] at hkR
      exact hkR.2.symm
    have hpred := (List.mem_filter.mp hcR).2
    cases hv : userLastActivity bbSt.metas bbSt.saas cR.user_id o with
    | none =>
      rw [hv] at hpred
      exact absurd hpred (by simp)
    | some la =>
      rw [hv] at hpred
      have hthrla : now - days * secondsPerDay ≤ la := of_decide_eq_true hpred
      constructor
      · intro _
        have htab : lastActivityOrMin
            (recoverActiveUsers b now o days bbSt).1.metas
            (recoverActiveUsers b now o days bbSt).1.saas y.user_id o =
            (userLastActivity bbSt.metas bbSt.saas y.user_id o).getD
              datetimeMin := rfl
        have hyu : y.user_id = cR.user_id := by
          rw [h3u, hcRuser]
        rw [htab, hyu, hv]
        simpa using hthrla
      · intro hp
        rw [hyshape] at hp
        exact absurd (Option.some.inj hp) (by decide)
  · by_cases hM2 : ((deleteCandidates b (now - grace * secondsPerDay) o
        aSt.members).any fun c => keyMatches c y1) = true
    · -- deleted: both clauses are vacuous
      have hy2shape :
          y2 = { y1 with retention_status := some "retention_deleted" } := by
        rw [← hy1eq]; exact if_pos hM2
      have hyshape : y = y2 := by
        rw [← hy2eq]
        unfold recoverRowUpdate
        rw [if_neg hM3]
      constructor
      · intro hstat
        rw [hyshape, hy2shape] at hstat
        rcases hstat with h | h
        · exact Option.noConfusion h
        · exact absurd (Option.some.inj h) (by decide)
      · intro hp
        rw [hyshape, hy2shape] at hp
        exact absurd (Option.some.inj hp) (by decide)
    · by_cases hM1 : ((markedMembers b (now - days * secondsPerDay) o st.metas
          st.saas st.members).any fun c => keyMatches c x) = true
      · -- freshly marked: pending since `now`, stale activity
        have hy1shape :
            y1 = { x with retention_status := some "retention_pending",
                          retention_pending_since := some now } := by
          rw [← hxeq]
          unfold markRowUpdate
          rw [if_pos hM1]
        have hy2shape : y2 = y1 := by
          rw [← hy1eq]; exact if_neg hM2
        have hyshape : y = y1 := by
          rw [← hy2eq]
          unfold recoverRowUpdate
          rw [if_neg hM3]
          exact hy2shape
        obtain ⟨cM, hcMmem, hkM⟩ := List.any_eq_true.mp hM1
        have hcMuser : cM.user_id = x.user_id := by
          unfold keyMatches at hkM
          rw [Bool.and_eq_true, beq_iff_eq, beq_iff_eq] at hkM
          exact hkM.2.symm
        have hpredM := (List.mem_filter.mp hcMmem).2
        have hlaD : lastActivityOrMin st.metas st.saas x.user_id o <
            now - days * secondsPerDay := by
          have := of_decide_eq_true hpredM
          rwa [hcMuser] at this
        have hnotdel : ∀ c ∈ deleteCandidates b (now - grace * secondsPerDay) o
            aSt.members, (x.user_id == c.user_id) = false := by
          intro c hc
          rw [Bool.eq_false_iff]
          intro hbeq
          apply hM2
          refine List.any_eq_true.mpr ⟨c, hc, ?_⟩
          unfold keyMatches
          rw [Bool.and_eq_true, beq_iff_eq, beq_iff_eq]
          constructor
          · rw [hy1shape]
            show x.org_id = c.org_id
            rw [horgx, hdelsOrg c hc]
          · rw [hy1shape]
            show x.user_id = c.user_id
            rwa [beq_iff_eq] at hbeq
        have hlap := hbbla x.user_id hnotdel
        constructor
        · intro hstat
          rw [hyshape, hy1shape] at hstat
          rcases hstat with h | h
          · exact Option.noConfusion h
          · exact absurd (Option.some.inj h) (by decide)
        · intro _
          constructor
          · intro t ht
            rw [hyshape, hy1shape] at ht
            have hteq : t = now := (Option.some.inj ht).symm
            rw [hteq]
            have h86 : (0 : Int) < secondsPerDay := by decide
            have hpos : 0 < grace * secondsPerDay := mul_pos hg h86
            linarith
          · have htab : userLastActivity
                (recoverActiveUsers b now o days bbSt).1.metas
                (recoverActiveUsers b now o days bbSt).1.saas y.user_id o =
                userLastActivity bbSt.metas bbSt.saas y.user_id o := rfl
            rw [htab, hyux, hlap]
            cases hsla : userLastActivity st.metas st.saas x.user_id o with
            | none => exact Or.inl rfl
            | some v =>
              right
              intro la hla
              have hlav : la = v := (Option.some.inj hla).symm
              have hlaDv : lastActivityOrMin st.metas st.saas x.user_id o =
                  v := by
                unfold lastActivityOrMin
                rw [hsla]
                rfl
              rw [hlav]
              omega
      · -- untouched row
        have hy1shape : y1 = x := by
          rw [← hxeq]
          unfold markRowUpdate
          rw [if_neg hM1]
        rw [hy1shape] at hM2
        have hy2shape : y2 = x := by
          rw [← hy1eq, hy1shape]
          exact if_neg hM2
        rw [hy2shape] at hM3
        have hyshape : y = x := by
          rw [← hy2eq, hy2shape]
          unfold recoverRowUpdate
          rw [if_neg hM3]
        have hnotdel : ∀ c ∈ deleteCandidates b (now - grace * secondsPerDay) o
            aSt.members, (x.user_id == c.user_id) = false := by
          intro c hc
          rw [Bool.eq_false_iff]
          intro hbeq
          apply hM2
          refine List.any_eq_true.mpr ⟨c, hc, ?_⟩
          unfold keyMatches
          rw [Bool.and_eq_true, beq_iff_eq, beq_iff_eq]
          refine ⟨by rw [horgx, hdelsOrg c hc], ?_⟩
          rwa [beq_iff_eq] at hbeq
        have hfixmark : markRowUpdate now (markedMembers b
            (now - days * secondsPerDay) o st.metas st.saas st.members) x =
            x := by
          rw [hxeq, hy1shape]
        have hxA : x ∈ aSt.members := by
          rw [haM]
          exact List.mem_map.mpr ⟨x, hx, hfixmark⟩
        constructor
        · -- still active or null: activity must be recent
          intro hstat
          rw [hyshape] at hstat
          have hsel : markSelectable o x = true := by
            unfold markSelectable
            rw [Bool.and_eq_true, Bool.or_eq_true]
            refine ⟨beq_iff_eq.mpr horgx, ?_⟩
            rcases hstat with h | h
            · left; rw [h]; rfl
            · right; rw [h]; rfl
          have hcand : x ∈ markCandidates b o st.members := by
            rw [hmarkAll]
            exact List.mem_filter.mpr ⟨hx, hsel⟩
          have hxtm : x ∉ markedMembers b (now - days * secondsPerDay) o
              st.metas st.saas st.members := fun hmem =>
            hM1 (List.any_eq_true.mpr ⟨x, hmem, keyMatches_self x⟩)
          have hnotlt : ¬(lastActivityOrMin st.metas st.saas x.user_id o <
              now - days * secondsPerDay) := by
            intro hlt
            exact hxtm (List.mem_filter.mpr ⟨hcand, decide_eq_true hlt⟩)
          cases hsla : userLastActivity st.metas st.saas x.user_id o with
          | none =>
            exfalso
            have hmineq : lastActivityOrMin st.metas st.saas x.user_id o =
                datetimeMin := by
              unfold lastActivityOrMin
              rw [hsla]
              rfl
            rw [hmineq] at hnotlt
            omega
          | some v =>
            have hlaDv : lastActivityOrMin st.metas st.saas x.user_id o =
                v := by
              unfold lastActivityOrMin
              rw [hsla]
              rfl
            have hlap := hbbla x.user_id hnotdel
            have htab : lastActivityOrMin
                (recoverActiveUsers b now o days bbSt).1.metas
                (recoverActiveUsers b now o days bbSt).1.saas y.user_id o =
                (userLastActivity bbSt.metas bbSt.saas y.user_id o).getD
                  datetimeMin := rfl
            rw [htab, hyux, hlap, hsla]
            have : now - days * secondsPerDay ≤ v := by omega
            exact this
        · -- still pending: within grace, activity still stale
          intro hp
          rw [hyshape] at hp
          constructor
          · intro t ht
            rw [hyshape] at ht
            by_contra hcon
            have hlt : t < now - grace * secondsPerDay := by omega
            have hselD : deleteSelectable o (now - grace * secondsPerDay) x =
                true := by
              unfold deleteSelectable
              rw [Bool.and_eq_true, Bool.and_eq_true]
              refine ⟨⟨beq_iff_eq.mpr horgx, ?_⟩, ?_⟩
              · rw [hp]; rfl
              · rw [ht]
                exact decide_eq_true hlt
            have hxdels : x ∈ deleteCandidates b
                (now - grace * secondsPerDay) o aSt.members := by
              rw [hdelAll]
              exact List.mem_filter.mpr ⟨hxA, hselD⟩
            exact hM2 (List.any_eq_true.mpr ⟨x, hxdels, keyMatches_self x⟩)
          · have hfixdel : (fun z =>
                if ((deleteCandidates b (now - grace * secondsPerDay) o
                  aSt.members).any fun c => keyMatches c z) = true then
                  { z with retention_status := some "retention_deleted" }
                else z) x = x := if_neg hM2
            have hxB : x ∈ bbSt.members := by
              rw [hbbM]
              exact List.mem_map.mpr ⟨x, hxA, hfixdel⟩
            have hselR : recoverSelectable o x = true := by
              unfold recoverSelectable
              rw [Bool.and_eq_true]
              exact ⟨beq_iff_eq.mpr horgx, by rw [hp]; rfl⟩
            have hxrec : x ∈ recoverCandidates b o bbSt.members := by
              rw [hrecAll]
              exact List.mem_filter.mpr ⟨hxB, hselR⟩
            have hxtr : x ∉ recoveredMembers b (now - days * secondsPerDay) o
                bbSt.metas bbSt.saas bbSt.members := fun hmem =>
              hM3 (List.any_eq_true.mpr ⟨x, hmem, keyMatches_self x⟩)
            have htab : userLastActivity
                (recoverActiveUsers b now o days bbSt).1.metas
                (recoverActiveUsers b now o days bbSt).1.saas y.user_id o =
                userLastActivity bbSt.metas bbSt.saas y.user_id o := rfl
            rw [htab, hyux]
            cases hv : userLastActivity bbSt.metas bbSt.saas x.user_id o with
            | none => exact Or.inl rfl
            | some la =>
              right
              intro la2 hla2
              have hnotpred : ¬((match userLastActivity bbSt.metas bbSt.saas
                  x.user_id o with
                | some la3 => decide (now - days * secondsPerDay ≤ la3)
                | none => false) = true) := fun hpred =>
                hxtr (List.mem_filter.mpr ⟨hxrec, hpred⟩)
              rw [hv] at hnotpred
              have hlt : la < now - days * secondsPerDay := by
                by_contra hcon
                exact hnotpred (decide_eq_true (by omega))
              have : la2 = la := (Option.some.inj hla2).symm
              omega

/-- C6 counterexample: 51 never-active members and the default batch cap 50.
The first run marks only 50 members; an immediate second run (same clock, no
new activity) marks one more member, so the second run is not a no-op. -/
theorem second_run_counterexample :
    (processOrgRetention 50 0 (fun _ => false)
      { id := 1, inactive_user_retention_days := some 90 }
      ⟨(List.range 51).map (fun i => (⟨1, i, none, none⟩ : OrgMember)),
        [], [], []⟩).2.1 = 50 ∧
    (processOrgRetention 50 0 (fun _ => false)
      { id := 1, inactive_user_retention_days := some 90 }
      (processOrgRetention 50 0 (fun _ => false)
        { id := 1, inactive_user_retention_days := some 90 }
        ⟨(List.range 51).map (fun i => (⟨1, i, none, none⟩ : OrgMember)),
          [], [], []⟩).1).2.1 = 1 := by
  constructor
  · decide
  · decide

/-- C6 (amended): provided the organization has at most `batch_size` member
rows (so no phase's batch cap truncates), the effective grace period is
positive, the inactivity threshold is representable (`now - days` does not
underflow `datetime.min`), and each conversation id has at most one
org-scoped shadow record, a second run immediately after a completed
failure-free run marks, deletes and recovers zero additional members and
leaves the store unchanged — regardless of which users would fail in the
second run. -/
theorem second_run_idempotent (b : Nat) (now : Int) (org : Org) (st : Store)
    (hb : (st.members.filter (fun m => m.org_id == org.id)).length ≤ b)
    (hg : 0 < pyOrInt org.inactive_user_grace_period_days
      DEFAULT_GRACE_PERIOD_DAYS)
    (hmin : datetimeMin < now - pyOrInt org.inactive_user_retention_days
      DEFAULT_INACTIVITY_THRESHOLD_DAYS * secondsPerDay)
    (hconv : (st.saas.map (fun s => s.conversation_id)).Nodup)
    (failing2 : Nat → Bool) :
    processOrgRetention b now failing2 org
      (processOrgRetention b now (fun _ => false) org st).1 =
      ((processOrgRetention b now (fun _ => false) org st).1, 0, 0, 0) := by
  apply settled_run
  have hfinal : (processOrgRetention b now (fun _ => false) org st).1 =
      (recoverActiveUsers b now org.id
        (pyOrInt org.inactive_user_retention_days
          DEFAULT_INACTIVITY_THRESHOLD_DAYS)
        (deleteRetentionPendingUsers b now
          (pyOrInt org.inactive_user_grace_period_days
            DEFAULT_GRACE_PERIOD_DAYS) org.id (fun _ => false)
          (markInactiveUsers b now org.id
            (pyOrInt org.inactive_user_retention_days
              DEFAULT_INACTIVITY_THRESHOLD_DAYS) st).1).1).1 := rfl
  rw [hfinal]
  exact run_establishes_settled b now
    (pyOrInt org.inactive_user_retention_days DEFAULT_INACTIVITY_THRESHOLD_DAYS)
    (pyOrInt org.inactive_user_grace_period_days DEFAULT_GRACE_PERIOD_DAYS)
    org.id st hb hg hmin hconv

/-- C6 (amended) witness: one never-active member; after the first run marks
them, an immediate second run changes nothing. -/
theorem second_run_idempotent_witness :
    processOrgRetention 50 0 (fun _ => false)
      { id := 1, inactive_user_retention_days := some 90 }
      (processOrgRetention 50 0 (fun _ => false)
        { id := 1, inactive_user_retention_days := some 90 }
        ⟨[⟨1, 7, none, none⟩], [], [], []⟩).1 =
      ((processOrgRetention 50 0 (fun _ => false)
        { id := 1, inactive_user_retention_days := some 90 }
        ⟨[⟨1, 7, none, none⟩], [], [], []⟩).1, 0, 0, 0) :=
  second_run_idempotent 50 0
    { id := 1, inactive_user_retention_days := some 90 }
    ⟨[⟨1, 7, none, none⟩], [], [], []⟩ (by decide) (by decide) (by decide)
    (by decide) (fun _ => false)
